import Mathlib

/-!
Shallow embedding of the iCSD forward-model validation harness
(`testing.py`): the physical-unit layer (python-quantities semantics),
the three potential kernels (`potential_of_plane`, `potential_of_disk`,
`potential_of_cylinder`), the plane LFP synthesizer
(`get_lfp_of_planes`) and a model of the external inverse estimator
consumed by the round-trip tests.
-/

/-- SI base dimension exponents (length `L`, mass `M`, time `T`,
current `I`); the physical dimension of a quantity. -/
structure SIDims where
  L : ℤ
  M : ℤ
  T : ℤ
  I : ℤ
deriving DecidableEq

instance : Add SIDims := ⟨fun a b => ⟨a.L + b.L, a.M + b.M, a.T + b.T, a.I + b.I⟩⟩

instance : Sub SIDims := ⟨fun a b => ⟨a.L - b.L, a.M - b.M, a.T - b.T, a.I - b.I⟩⟩

/-- A physical unit in the sense of the `quantities` package: a rational
scale factor to the SI base together with dimension exponents.  As in
`pq`, two units are equal exactly when both the dimension and the scale
agree; `pq.mm` and `pq.m` compare unequal (same dimension, scale
`1/1000` versus `1`). -/
structure PhysUnit where
  scale : ℚ
  dims : SIDims
deriving DecidableEq

instance : Mul PhysUnit := ⟨fun a b => ⟨a.scale * b.scale, a.dims + b.dims⟩⟩

instance : Div PhysUnit := ⟨fun a b => ⟨a.scale / b.scale, a.dims - b.dims⟩⟩

def PhysUnit.npow (u : PhysUnit) : Nat → PhysUnit
  | 0 => ⟨1, ⟨0, 0, 0, 0⟩⟩
  | n + 1 => u * u.npow n

instance : Pow PhysUnit Nat := ⟨PhysUnit.npow⟩

/-- `pq.m`. -/
def metre : PhysUnit := ⟨1, ⟨1, 0, 0, 0⟩⟩

/-- `pq.mm`. -/
def millimetre : PhysUnit := ⟨1 / 1000, ⟨1, 0, 0, 0⟩⟩

/-- `pq.V` (= kg·m²·s⁻³·A⁻¹). -/
def volt : PhysUnit := ⟨1, ⟨2, 1, -3, -1⟩⟩

/-- `pq.mV`. -/
def millivolt : PhysUnit := ⟨1 / 1000, ⟨2, 1, -3, -1⟩⟩

/-- `pq.A/pq.m**2` (areal current source density). -/
def ampPerM2 : PhysUnit := ⟨1, ⟨-2, 0, 0, 1⟩⟩

/-- `pq.A/pq.m**3` (volumetric current source density). -/
def ampPerM3 : PhysUnit := ⟨1, ⟨-3, 0, 0, 1⟩⟩

/-- `pq.S` (= A²·s³·kg⁻¹·m⁻²). -/
def siemens : PhysUnit := ⟨1, ⟨-2, -1, 3, 2⟩⟩

/-- `pq.S/pq.m`. -/
def siemensPerMetre : PhysUnit := ⟨1, ⟨-3, -1, 3, 2⟩⟩

/-- `pq.mS/pq.m`. -/
def millisiemensPerMetre : PhysUnit := ⟨1 / 1000, ⟨-3, -1, 3, 2⟩⟩

section QuantityDefs

variable {α : Type} [LinearOrderedField α]

/-- A `pq.Quantity`: a numeric magnitude tagged with a unit.  The
magnitude field is kept abstract in an ordered field so that the exact
development can instantiate it at `ℚ` and the kernels needing square
roots and integrals at `ℝ`. -/
structure Quantity (α : Type) where
  mag : α
  units : PhysUnit
deriving DecidableEq

/-- The value of a quantity expressed in the SI base scale: magnitude
times unit scale.  Two representations of the same physical value (for
example `1*pq.V` and `1000*pq.mV`) share their `physVal`. -/
def physVal (q : Quantity α) : α := q.mag * ((q.units.scale : ℚ) : α)

/-- `pq` negation: negate the magnitude, keep the unit. -/
def qneg (a : Quantity α) : Quantity α := ⟨-a.mag, a.units⟩

/-- `pq` absolute value: magnitude absolute value, same unit. -/
def qabs (a : Quantity α) : Quantity α := ⟨|a.mag|, a.units⟩

/-- `pq` multiplication by a bare scalar (such as the `2` in
`2*sigma`): scales the magnitude, keeps the unit. -/
def qsmul (c : α) (a : Quantity α) : Quantity α := ⟨c * a.mag, a.units⟩

/-- `pq` multiplication: magnitudes multiply and units compose. -/
def qmul (a b : Quantity α) : Quantity α := ⟨a.mag * b.mag, a.units * b.units⟩

/-- `pq` division: magnitudes divide and units divide. -/
def qdiv (a b : Quantity α) : Quantity α := ⟨a.mag / b.mag, a.units / b.units⟩

/-- `pq` addition.  With identical units the magnitudes add directly;
with equal dimension but different scale the right operand is rescaled
to the left operand's unit first (scale-correct reconciliation).  On
incompatible dimensions `pq` raises a `ValueError`; every use in the
source is guarded by a unit check, so that branch is never reached and
is modelled as a plain magnitude sum. -/
def qadd (a b : Quantity α) : Quantity α :=
  if a.units = b.units then ⟨a.mag + b.mag, a.units⟩
  else if a.units.dims = b.units.dims then
    ⟨a.mag + b.mag * ((b.units.scale / a.units.scale : ℚ) : α), a.units⟩
  else ⟨a.mag + b.mag, a.units⟩

/-- `pq` subtraction, with the same reconciliation rule as `qadd`. -/
def qsub (a b : Quantity α) : Quantity α :=
  if a.units = b.units then ⟨a.mag - b.mag, a.units⟩
  else if a.units.dims = b.units.dims then
    ⟨a.mag - b.mag * ((b.units.scale / a.units.scale : ℚ) : α), a.units⟩
  else ⟨a.mag - b.mag, a.units⟩

/-- `pq` `.simplified`: re-express the quantity in the SI base scale
(magnitude times scale, unit scale reset to `1`). -/
def qsimplified (a : Quantity α) : Quantity α :=
  ⟨a.mag * ((a.units.scale : ℚ) : α), ⟨1, a.units.dims⟩⟩

end QuantityDefs

/-- The unit-mismatch failure raised by the kernels' argument checks
(`assert(z_j.units == z_i.units == ...)` re-raised with a message naming
the offending units). -/
structure UnitMismatchError where
  offending : List PhysUnit
deriving DecidableEq

section Kernels

variable {α : Type} [LinearOrderedField α]

/-- The value computed by `potential_of_plane` once its unit check has
passed: `-C_i/(2*sigma)*abs(z_j-z_i).simplified`. -/
def planeCore (z_j z_i C_i sigma : Quantity α) : Quantity α :=
  qmul (qdiv (qneg C_i) (qsmul 2 sigma)) (qsimplified (qabs (qsub z_j z_i)))

/-- `potential_of_plane(z_j, z_i, C_i, sigma)`: potential of an infinite
horizontal plane source at vertical offset `z_j`.  The source first
asserts `z_j.units == z_i.units` and re-raises a unit-mismatch error
naming the two units; only then is the formula evaluated. -/
def potential_of_plane (z_j z_i C_i sigma : Quantity α) :
    Except UnitMismatchError (Quantity α) :=
  if z_j.units = z_i.units then Except.ok (planeCore z_j z_i C_i sigma)
  else Except.error ⟨[z_j.units, z_i.units]⟩

/-- The value computed by `potential_of_disk` once its unit check has
passed: `C_i/(2*sigma)*(np.sqrt((z_j-z_i)**2 + R_i**2) -
abs(z_j-z_i)).simplified`.  Under the check `z_j`, `z_i` and `R_i`
share one unit `u`, so `(z_j-z_i)**2 + R_i**2` carries `u**2` and
`np.sqrt` of it is the magnitude square root tagged with `u` back. -/
noncomputable def diskCore (z_j z_i C_i R_i sigma : Quantity ℝ) : Quantity ℝ :=
  qmul (qdiv C_i (qsmul 2 sigma))
    (qsimplified (qsub ⟨Real.sqrt ((z_j.mag - z_i.mag) ^ 2 + R_i.mag ^ 2), z_j.units⟩
      (qabs (qsub z_j z_i))))

/-- `potential_of_disk(z_j, z_i, C_i, R_i, sigma)`: potential of a
finite circular disk source.  Asserts
`z_j.units == z_i.units == R_i.units` before computing. -/
noncomputable def potential_of_disk (z_j z_i C_i R_i sigma : Quantity ℝ) :
    Except UnitMismatchError (Quantity ℝ) :=
  if z_j.units = z_i.units ∧ z_i.units = R_i.units then
    Except.ok (diskCore z_j z_i C_i R_i sigma)
  else Except.error ⟨[z_j.units, z_i.units, R_i.units]⟩

/-- `potential_of_cylinder(z_j, z_i, C_i, R_i, h_i, sigma)`: potential
of a finite cylinder source.  After asserting
`z_j.units == z_i.units == R_i.units == h_i.units` the source strips
the units off (`float(...)` reads the raw magnitudes), integrates the
dimension-stripped integrand
`1/(2*_sigma)*(np.sqrt((z-_z_j)**2 + _R_i**2) - abs(z-_z_j))`
over `[z_i - h_i/2, z_i + h_i/2]` (the quadrature is idealized as the
exact interval integral), multiplies by `C_i`, and reattaches the unit
algebraically as `C_i.units * z_i.units**2 / sigma.units`. -/
noncomputable def potential_of_cylinder (z_j z_i C_i R_i h_i sigma : Quantity ℝ) :
    Except UnitMismatchError (Quantity ℝ) :=
  if z_j.units = z_i.units ∧ z_i.units = R_i.units ∧ R_i.units = h_i.units then
    Except.ok ⟨C_i.mag * ∫ z in (z_i.mag - h_i.mag / 2)..(z_i.mag + h_i.mag / 2),
        1 / (2 * sigma.mag) * (Real.sqrt ((z - z_j.mag) ^ 2 + R_i.mag ^ 2) - |z - z_j.mag|),
      C_i.units * (z_i.units ^ 2 / sigma.units)⟩
  else Except.error ⟨[z_j.units, z_i.units, R_i.units, h_i.units]⟩

end Kernels

section Synthesizer

variable {α : Type} [LinearOrderedField α]

/-- One pass of the inner loop of `get_lfp_of_planes` for a fixed
source `(zi, ci)`: add the plane kernel's contribution to every
accumulated electrode potential (`phi_j[j] += potential_of_plane(zj,
zi, C_i[i], sigma)`), walking the accumulator and the electrode list in
lockstep and propagating a unit-mismatch failure from the first
offending electrode. -/
def addPlaneSource (sigma : Quantity α) :
    List (Quantity α) → List (Quantity α) → Quantity α → Quantity α →
      Except UnitMismatchError (List (Quantity α))
  | [], _, _, _ => Except.ok []
  | _ :: _, [], _, _ => Except.ok []
  | phi :: phis, zj :: zjs, zi, ci => do
    let v ← potential_of_plane zj zi ci sigma
    let rest ← addPlaneSource sigma phis zjs zi ci
    pure (qadd phi v :: rest)

/-- `get_lfp_of_planes(z_j, z_i, C_i, sigma, plot)`: superpose the
plane kernel over the electrode array.  `phi_j` starts as
`np.zeros(z_j.size)*pq.V` and the source loops sources-outer,
electrodes-inner; the `plot` flag only gates a diagnostic figure and
does not touch the returned values.  Returns the trace together with
the pass-through ground-truth densities `C_i`. -/
def get_lfp_of_planes (z_j z_i C_i : List (Quantity α)) (sigma : Quantity α)
    (plot : Bool) : Except UnitMismatchError (List (Quantity α) × List (Quantity α)) := do
  let _ := plot
  let init : List (Quantity α) := z_j.map (fun _ => ⟨0, volt⟩)
  let phi ← (z_i.zip C_i).foldlM
    (fun acc p => addPlaneSource sigma acc z_j p.1 p.2) init
  pure (phi, C_i)

end Synthesizer

section Estimator

/-- Pick the first row of an augmented system whose leading coefficient
is non-zero (partial pivoting), returning it with the remaining rows. -/
def pickPivot : List (List ℚ) → Option (List ℚ × List (List ℚ))
  | [] => none
  | r :: rs =>
    if r.headD 0 ≠ 0 then some (r, rs)
    else match pickPivot rs with
      | some (p, rest) => some (p, r :: rest)
      | none => none

/-- Subtract the scaled pivot row from `r` so its leading entry becomes
zero, and drop that leading entry. -/
def elimRow (p r : List ℚ) : List ℚ :=
  (List.zipWith (fun x y => x - r.headD 0 * y) r p).tail

/-- Exact Gaussian elimination with back substitution on an augmented
system of `n` unknowns (each row is `n` coefficients followed by the
right-hand side).  Returns `none` when no pivot is available. -/
def gaussSolve : Nat → List (List ℚ) → Option (List ℚ)
  | 0, _ => some []
  | n + 1, rows =>
    match pickPivot rows with
    | none => none
    | some (r, rest) =>
      let p := r.map (fun x => x / r.headD 0)
      let rest2 := rest.map (elimRow p)
      match gaussSolve n rest2 with
      | none => none
      | some xs =>
        let coeffs := p.tail.dropLast
        let b := p.getLastD 0
        some ((b - (List.zipWith (fun a x => a * x) coeffs xs).sum) :: xs)

/-- Magnitude part of the modelled standard estimator: solve the plane
forward system `A x = phi` in SI base values, where
`A[j][i] = -|z_j - z_i| / (2*sigma)` is the plane kernel's response of
electrode `j` to a unit density at electrode `i`. -/
def stdCSDsol (zs phis : List ℚ) (sv : ℚ) : List ℚ :=
  let a := zs.map (fun zj => zs.map (fun zi => -(|zj - zi|) / (2 * sv)))
  (gaussSolve zs.length (List.zipWith (fun row b => row ++ [b]) a phis)).getD
    (phis.map (fun _ => 0))

/-- Modelled from the spec: the external inverse estimator
`icsd.StandardCSD` (module `icsd`, which the harness imports but which
is not part of the source under verification).  Per the spec the
inverse estimator answers the reverse question of the forward model for
the plane geometry: given the `lfp` trace, the electrode coordinates
and the medium conductivity, it returns one density value per
electrode.  Unit handling follows the spec's contract: inputs are
reconciled to the SI base scale before the numeric work (so the result
is invariant under dimensionally consistent rescaling of the inputs),
and the returned unit is derived from the input units as
potential x conductivity / length (areal density), never hardcoded.
The spatial-filter options (`f_type`, `f_order`) do not enter the
density recovery demanded by the spec's round-trip exactness property
and are not modelled. -/
def StandardCSD (lfp coord_electrode : List (Quantity ℚ)) (sigma : Quantity ℚ) :
    List (Quantity ℚ) :=
  (stdCSDsol (coord_electrode.map physVal) (lfp.map physVal) (physVal sigma)).map
    (fun x => ⟨x, ⟨1, ((lfp.headD ⟨0, volt⟩).units.dims + sigma.units.dims) -
      (coord_electrode.headD ⟨0, metre⟩).units.dims⟩⟩)

/-- Re-express a quantity in a dimensionally consistent rescaled unit:
the magnitude grows by the factor `f` while the unit scale shrinks by
`f` (for example `f = 1000` turns `1*pq.V` into `1000*pq.mV`), leaving
the physical value unchanged for `f` positive. -/
def rescaleQ (f : ℚ) (q : Quantity ℚ) : Quantity ℚ :=
  ⟨q.mag * f, ⟨q.units.scale / f, q.units.dims⟩⟩

end Estimator

section Scenario

/-- The validation scenario's electrode array: 21 contact points at
`np.arange(21)*1E-4*pq.m`. -/
def z_j21 : List (Quantity ℚ) :=
  (List.range 21).map (fun j => ⟨(j : ℚ) / 10000, metre⟩)

/-- The validation scenario's ground-truth density: zeros except
`C_i[7:12:2] += np.array([-.5, 1., -.5])*pq.A/pq.m**2`. -/
def C_true : List (Quantity ℚ) :=
  (List.range 21).map (fun i =>
    ⟨if i = 7 then -(1/2) else if i = 9 then 1 else if i = 11 then -(1/2) else 0, ampPerM2⟩)

/-- The validation scenario's conductivity `0.3*pq.S/pq.m`. -/
def sigma0 : Quantity ℚ := ⟨3/10, siemensPerMetre⟩

set_option maxRecDepth 100000 in
set_option maxHeartbeats 4000000 in
/-- The round trip of the primary scenario: synthesizing the trace with
the plane kernel and feeding it to the modelled standard estimator
recovers the imposed ground-truth density exactly. -/
theorem scenario_roundtrip :
    (get_lfp_of_planes z_j21 z_j21 C_true sigma0 false).map
      (fun p => StandardCSD p.1 z_j21 sigma0) = Except.ok C_true := by
  with_unfolding_all rfl

end Scenario

section UnitLemmas

@[simp] theorem PhysUnit.mul_scale (a b : PhysUnit) : (a * b).scale = a.scale * b.scale := rfl

@[simp] theorem PhysUnit.mul_dims (a b : PhysUnit) : (a * b).dims = a.dims + b.dims := rfl

@[simp] theorem PhysUnit.div_scale (a b : PhysUnit) : (a / b).scale = a.scale / b.scale := rfl

@[simp] theorem PhysUnit.div_dims (a b : PhysUnit) : (a / b).dims = a.dims - b.dims := rfl

@[simp] theorem SIDims.add_L (a b : SIDims) : (a + b).L = a.L + b.L := rfl

@[simp] theorem SIDims.add_M (a b : SIDims) : (a + b).M = a.M + b.M := rfl

@[simp] theorem SIDims.add_T (a b : SIDims) : (a + b).T = a.T + b.T := rfl

@[simp] theorem SIDims.add_I (a b : SIDims) : (a + b).I = a.I + b.I := rfl

@[simp] theorem SIDims.sub_L (a b : SIDims) : (a - b).L = a.L - b.L := rfl

@[simp] theorem SIDims.sub_M (a b : SIDims) : (a - b).M = a.M - b.M := rfl

@[simp] theorem SIDims.sub_T (a b : SIDims) : (a - b).T = a.T - b.T := rfl

@[simp] theorem SIDims.sub_I (a b : SIDims) : (a - b).I = a.I - b.I := rfl

theorem SIDims.ext_of {a b : SIDims} (hL : a.L = b.L) (hM : a.M = b.M)
    (hT : a.T = b.T) (hI : a.I = b.I) : a = b := by
  cases a
  cases b
  simp_all

end UnitLemmas

section PhysLemmas

variable {α : Type} [LinearOrderedField α]

theorem physVal_rat (q : Quantity ℚ) : physVal q = q.mag * q.units.scale := by
  simp [physVal]

theorem physVal_qneg (a : Quantity α) : physVal (qneg a) = -physVal a := by
  simp [physVal, qneg]

theorem physVal_qsmul (c : α) (a : Quantity α) : physVal (qsmul c a) = c * physVal a := by
  simp [physVal, qsmul, mul_assoc]

theorem physVal_qmul (a b : Quantity α) : physVal (qmul a b) = physVal a * physVal b := by
  simp only [physVal, qmul, PhysUnit.mul_scale, Rat.cast_mul]
  ring

theorem physVal_qdiv (a b : Quantity α) : physVal (qdiv a b) = physVal a / physVal b := by
  simp only [physVal, qdiv, PhysUnit.div_scale, Rat.cast_div]
  rw [div_mul_div_comm]

theorem physVal_qsimplified (a : Quantity α) : physVal (qsimplified a) = physVal a := by
  simp [physVal, qsimplified]

theorem qsimplified_units (a : Quantity α) : (qsimplified a).units = ⟨1, a.units.dims⟩ := rfl

theorem qabs_units (a : Quantity α) : (qabs a).units = a.units := rfl

theorem physVal_qabs (a : Quantity α) (h : 0 ≤ a.units.scale) :
    physVal (qabs a) = |physVal a| := by
  have hs : (0 : α) ≤ ((a.units.scale : ℚ) : α) := by exact_mod_cast h
  simp [physVal, qabs, abs_mul, abs_of_nonneg hs]

theorem qsub_units (a b : Quantity α) : (qsub a b).units = a.units := by
  unfold qsub
  split
  · rfl
  · split
    · rfl
    · rfl

theorem qadd_units (a b : Quantity α) : (qadd a b).units = a.units := by
  unfold qadd
  split
  · rfl
  · split
    · rfl
    · rfl

theorem qsub_of_units (a b : Quantity α) (h : a.units = b.units) :
    qsub a b = ⟨a.mag - b.mag, a.units⟩ := by
  rw [qsub, if_pos h]

theorem qadd_of_units (a b : Quantity α) (h : a.units = b.units) :
    qadd a b = ⟨a.mag + b.mag, a.units⟩ := by
  rw [qadd, if_pos h]

theorem physVal_qsub_of_units (a b : Quantity α) (h : a.units = b.units) :
    physVal (qsub a b) = physVal a - physVal b := by
  rw [qsub_of_units a b h]
  simp [physVal, h, sub_mul]

theorem physVal_qsub_of_dims (a b : Quantity α) (hd : a.units.dims = b.units.dims)
    (hs : a.units.scale ≠ 0) : physVal (qsub a b) = physVal a - physVal b := by
  by_cases h : a.units = b.units
  · exact physVal_qsub_of_units a b h
  · have hs' : ((a.units.scale : ℚ) : α) ≠ 0 := by exact_mod_cast hs
    rw [qsub, if_neg h, if_pos hd]
    simp only [physVal, Rat.cast_div]
    rw [sub_mul, mul_assoc, div_mul_cancel₀ _ hs']

theorem physVal_qadd_of_dims (a b : Quantity α) (hd : a.units.dims = b.units.dims)
    (hs : a.units.scale ≠ 0) : physVal (qadd a b) = physVal a + physVal b := by
  by_cases h : a.units = b.units
  · rw [qadd_of_units a b h]
    simp [physVal, h, add_mul]
  · have hs' : ((a.units.scale : ℚ) : α) ≠ 0 := by exact_mod_cast hs
    rw [qadd, if_neg h, if_pos hd]
    simp only [physVal, Rat.cast_div]
    rw [add_mul, mul_assoc, div_mul_cancel₀ _ hs']

end PhysLemmas

/-- C3: for any `z_j` and `z_i` carrying the same (positively scaled)
unit and any density and conductivity, `potential_of_plane` succeeds
and its result expressed in SI base values is
`-C_i/(2*sigma) * |z_j - z_i|`; in particular it vanishes at
`z_j = z_i` (the reference zero sits on the source plane). -/
theorem plane_kernel_formula {α : Type} [LinearOrderedField α]
    (z_j z_i C_i sigma : Quantity α) (hu : z_j.units = z_i.units)
    (hp : 0 < z_j.units.scale) :
    ∃ q, potential_of_plane z_j z_i C_i sigma = Except.ok q ∧
      physVal q = -physVal C_i / (2 * physVal sigma) * |physVal z_j - physVal z_i| ∧
      (z_j = z_i → physVal q = 0) := by
  have habs : (0 : ℚ) ≤ (qsub z_j z_i).units.scale := by
    rw [qsub_units]
    exact hp.le
  have hf : physVal (planeCore z_j z_i C_i sigma) =
      -physVal C_i / (2 * physVal sigma) * |physVal z_j - physVal z_i| := by
    unfold planeCore
    rw [physVal_qmul, physVal_qdiv, physVal_qneg, physVal_qsmul, physVal_qsimplified,
      physVal_qabs _ habs, physVal_qsub_of_units _ _ hu]
  refine ⟨planeCore z_j z_i C_i sigma, by rw [potential_of_plane, if_pos hu], hf, ?_⟩
  intro h
  rw [hf, h, sub_self, abs_zero, mul_zero]

/-- Witness for C3 at `z_j = 2 m`, `z_i = 5 m`, `C_i = 3 A/m²`,
`sigma = 0.3 S/m`. -/
theorem plane_kernel_formula_witness :
    ((⟨2, metre⟩ : Quantity ℚ).units = (⟨5, metre⟩ : Quantity ℚ).units ∧
        0 < (⟨2, metre⟩ : Quantity ℚ).units.scale) ∧
      (∃ q, potential_of_plane (⟨2, metre⟩ : Quantity ℚ) ⟨5, metre⟩ ⟨3, ampPerM2⟩
            ⟨3 / 10, siemensPerMetre⟩ = Except.ok q ∧
        physVal q = -physVal (⟨3, ampPerM2⟩ : Quantity ℚ) /
            (2 * physVal (⟨3 / 10, siemensPerMetre⟩ : Quantity ℚ)) *
            |physVal (⟨2, metre⟩ : Quantity ℚ) - physVal (⟨5, metre⟩ : Quantity ℚ)| ∧
        ((⟨2, metre⟩ : Quantity ℚ) = ⟨5, metre⟩ → physVal q = 0)) :=
  ⟨⟨rfl, by with_unfolding_all decide⟩,
    plane_kernel_formula _ _ _ _ rfl (by with_unfolding_all decide)⟩

/-- C4: for any `z_j`, `z_i` and `R_i` carrying the same (positively
scaled) unit and any density and conductivity, `potential_of_disk`
succeeds and its result expressed in SI base values is
`C_i/(2*sigma) * (sqrt((z_j - z_i)^2 + R_i^2) - |z_j - z_i|)`. -/
theorem disk_kernel_formula (z_j z_i C_i R_i sigma : Quantity ℝ)
    (hu : z_j.units = z_i.units) (hur : z_i.units = R_i.units)
    (hp : 0 < z_j.units.scale) :
    ∃ q, potential_of_disk z_j z_i C_i R_i sigma = Except.ok q ∧
      physVal q = physVal C_i / (2 * physVal sigma) *
        (Real.sqrt ((physVal z_j - physVal z_i) ^ 2 + physVal R_i ^ 2) -
          |physVal z_j - physVal z_i|) := by
  refine ⟨diskCore z_j z_i C_i R_i sigma,
    by rw [potential_of_disk, if_pos ⟨hu, hur⟩], ?_⟩
  have hsi : z_i.units = z_j.units := hu.symm
  have hsR : R_i.units = z_j.units := (hu.trans hur).symm
  have hs0 : (0 : ℝ) < ((z_j.units.scale : ℚ) : ℝ) := by exact_mod_cast hp
  have hTu : (⟨Real.sqrt ((z_j.mag - z_i.mag) ^ 2 + R_i.mag ^ 2), z_j.units⟩ :
      Quantity ℝ).units = (qabs (qsub z_j z_i)).units := by
    rw [qabs_units, qsub_units]
  unfold diskCore
  rw [physVal_qmul, physVal_qdiv, physVal_qsmul, physVal_qsimplified,
    physVal_qsub_of_units _ _ hTu,
    physVal_qabs _ (by rw [qsub_units]; exact hp.le), physVal_qsub_of_units _ _ hu]
  congr 1
  congr 1
  show Real.sqrt ((z_j.mag - z_i.mag) ^ 2 + R_i.mag ^ 2) * ((z_j.units.scale : ℚ) : ℝ) = _
  have hvj : physVal z_j = z_j.mag * ((z_j.units.scale : ℚ) : ℝ) := rfl
  have hvi : physVal z_i = z_i.mag * ((z_j.units.scale : ℚ) : ℝ) := by
    rw [physVal, hsi]
  have hvR : physVal R_i = R_i.mag * ((z_j.units.scale : ℚ) : ℝ) := by
    rw [physVal, hsR]
  rw [hvj, hvi, hvR,
    show (z_j.mag * ((z_j.units.scale : ℚ) : ℝ) - z_i.mag * ((z_j.units.scale : ℚ) : ℝ)) ^ 2 +
        (R_i.mag * ((z_j.units.scale : ℚ) : ℝ)) ^ 2 =
      ((z_j.mag - z_i.mag) ^ 2 + R_i.mag ^ 2) * ((z_j.units.scale : ℚ) : ℝ) ^ 2 by ring,
    Real.sqrt_mul (by positivity), Real.sqrt_sq hs0.le]

/-- Witness for C4 at `z_j = 4 m`, `z_i = 1 m`, `C_i = 3 A/m²`,
`R_i = 4 m`, `sigma = 0.3 S/m`. -/
theorem disk_kernel_formula_witness :
    ((⟨4, metre⟩ : Quantity ℝ).units = (⟨1, metre⟩ : Quantity ℝ).units ∧
        (⟨1, metre⟩ : Quantity ℝ).units = (⟨4, metre⟩ : Quantity ℝ).units ∧
        0 < (⟨4, metre⟩ : Quantity ℝ).units.scale) ∧
      (∃ q, potential_of_disk (⟨4, metre⟩ : Quantity ℝ) ⟨1, metre⟩ ⟨3, ampPerM2⟩
            ⟨4, metre⟩ ⟨3 / 10, siemensPerMetre⟩ = Except.ok q ∧
        physVal q = physVal (⟨3, ampPerM2⟩ : Quantity ℝ) /
            (2 * physVal (⟨3 / 10, siemensPerMetre⟩ : Quantity ℝ)) *
            (Real.sqrt ((physVal (⟨4, metre⟩ : Quantity ℝ) -
                physVal (⟨1, metre⟩ : Quantity ℝ)) ^ 2 +
                physVal (⟨4, metre⟩ : Quantity ℝ) ^ 2) -
              |physVal (⟨4, metre⟩ : Quantity ℝ) - physVal (⟨1, metre⟩ : Quantity ℝ)|)) :=
  ⟨⟨rfl, rfl, by with_unfolding_all decide⟩,
    disk_kernel_formula _ _ _ _ _ rfl rfl (by with_unfolding_all decide)⟩

/-- C5: under the kernel's unit check, `potential_of_cylinder` succeeds
and returns the quantity whose magnitude is `C_i` times the integral of
the dimension-stripped integrand over the cylinder's thickness and
whose unit is reattached algebraically as
`C_i.units * z_i.units**2 / sigma.units`, whose dimension is
density-dims + twice length-dims - conductivity-dims. -/
theorem cylinder_kernel_unit_reattachment (z_j z_i C_i R_i h_i sigma : Quantity ℝ)
    (h1 : z_j.units = z_i.units) (h2 : z_i.units = R_i.units)
    (h3 : R_i.units = h_i.units) :
    ∃ q, potential_of_cylinder z_j z_i C_i R_i h_i sigma = Except.ok q ∧
      q.units = C_i.units * (z_i.units ^ 2 / sigma.units) ∧
      q.units.dims = (C_i.units.dims + (z_i.units.dims + z_i.units.dims)) -
        sigma.units.dims ∧
      q.mag = C_i.mag * ∫ z in (z_i.mag - h_i.mag / 2)..(z_i.mag + h_i.mag / 2),
        1 / (2 * sigma.mag) * (Real.sqrt ((z - z_j.mag) ^ 2 + R_i.mag ^ 2) -
          |z - z_j.mag|) := by
  refine ⟨_, by rw [potential_of_cylinder, if_pos ⟨h1, h2, h3⟩], rfl, ?_, rfl⟩
  have hpow : (z_i.units ^ 2).dims = z_i.units.dims + (z_i.units.dims + ⟨0, 0, 0, 0⟩) := rfl
  show (C_i.units * (z_i.units ^ 2 / sigma.units)).dims = _
  rw [PhysUnit.mul_dims, PhysUnit.div_dims, hpow]
  apply SIDims.ext_of <;> simp <;> ring

/-- Witness for C5 at `z_j = 1 m`, `z_i = 2 m`, `C_i = 3 A/m³`,
`R_i = 1 m`, `h_i = 2 m`, `sigma = 0.3 S/m`. -/
theorem cylinder_kernel_unit_reattachment_witness :
    ((⟨1, metre⟩ : Quantity ℝ).units = (⟨2, metre⟩ : Quantity ℝ).units ∧
        (⟨2, metre⟩ : Quantity ℝ).units = (⟨1, metre⟩ : Quantity ℝ).units ∧
        (⟨1, metre⟩ : Quantity ℝ).units = (⟨2, metre⟩ : Quantity ℝ).units) ∧
      (∃ q, potential_of_cylinder (⟨1, metre⟩ : Quantity ℝ) ⟨2, metre⟩ ⟨3, ampPerM3⟩
            ⟨1, metre⟩ ⟨2, metre⟩ ⟨3 / 10, siemensPerMetre⟩ = Except.ok q ∧
        q.units = (⟨3, ampPerM3⟩ : Quantity ℝ).units *
          ((⟨2, metre⟩ : Quantity ℝ).units ^ 2 /
            (⟨3 / 10, siemensPerMetre⟩ : Quantity ℝ).units) ∧
        q.units.dims = ((⟨3, ampPerM3⟩ : Quantity ℝ).units.dims +
            ((⟨2, metre⟩ : Quantity ℝ).units.dims +
              (⟨2, metre⟩ : Quantity ℝ).units.dims)) -
          (⟨3 / 10, siemensPerMetre⟩ : Quantity ℝ).units.dims ∧
        q.mag = (⟨3, ampPerM3⟩ : Quantity ℝ).mag *
          ∫ z in ((⟨2, metre⟩ : Quantity ℝ).mag - (⟨2, metre⟩ : Quantity ℝ).mag / 2)..(
              (⟨2, metre⟩ : Quantity ℝ).mag + (⟨2, metre⟩ : Quantity ℝ).mag / 2),
            1 / (2 * (⟨3 / 10, siemensPerMetre⟩ : Quantity ℝ).mag) *
              (Real.sqrt ((z - (⟨1, metre⟩ : Quantity ℝ).mag) ^ 2 +
                  (⟨1, metre⟩ : Quantity ℝ).mag ^ 2) -
                |z - (⟨1, metre⟩ : Quantity ℝ).mag|)) :=
  ⟨⟨rfl, rfl, rfl⟩, cylinder_kernel_unit_reattachment _ _ _ _ _ _ rfl rfl rfl⟩

/-- C6: when the field point's unit dimension differs from the source
position's, every potential kernel stops at its argument check and
returns the unit-mismatch error naming the offending units, with no
numeric result produced. -/
theorem kernels_reject_dimension_mismatch (z_j z_i C_i R_i h_i sigma : Quantity ℝ)
    (hd : z_j.units.dims ≠ z_i.units.dims) :
    potential_of_plane z_j z_i C_i sigma = Except.error ⟨[z_j.units, z_i.units]⟩ ∧
    potential_of_disk z_j z_i C_i R_i sigma =
      Except.error ⟨[z_j.units, z_i.units, R_i.units]⟩ ∧
    potential_of_cylinder z_j z_i C_i R_i h_i sigma =
      Except.error ⟨[z_j.units, z_i.units, R_i.units, h_i.units]⟩ := by
  have hne : z_j.units ≠ z_i.units := fun h => hd (by rw [h])
  exact ⟨by rw [potential_of_plane, if_neg hne],
    by rw [potential_of_disk, if_neg (fun h => hne h.1)],
    by rw [potential_of_cylinder, if_neg (fun h => hne h.1)]⟩

/-- Witness for C6: a field point carrying siemens against a source
position in metres. -/
theorem kernels_reject_dimension_mismatch_witness :
    (⟨1, siemens⟩ : Quantity ℝ).units.dims ≠ (⟨0, metre⟩ : Quantity ℝ).units.dims ∧
      (potential_of_plane (⟨1, siemens⟩ : Quantity ℝ) ⟨0, metre⟩ ⟨1, ampPerM2⟩
          ⟨3 / 10, siemensPerMetre⟩ = Except.error ⟨[siemens, metre]⟩ ∧
        potential_of_disk (⟨1, siemens⟩ : Quantity ℝ) ⟨0, metre⟩ ⟨1, ampPerM2⟩
          ⟨1, metre⟩ ⟨3 / 10, siemensPerMetre⟩ =
            Except.error ⟨[siemens, metre, metre]⟩ ∧
        potential_of_cylinder (⟨1, siemens⟩ : Quantity ℝ) ⟨0, metre⟩ ⟨1, ampPerM3⟩
          ⟨1, metre⟩ ⟨1, metre⟩ ⟨3 / 10, siemensPerMetre⟩ =
            Except.error ⟨[siemens, metre, metre, metre]⟩) :=
  ⟨by decide, kernels_reject_dimension_mismatch _ _ _ _ _ _ (by decide)⟩

/-- C7 counterexample: `pq` units of the same dimension but different
scale compare unequal, so `potential_of_plane` called with a field
point in millimetres against a source position in metres fails its
`z_j.units == z_i.units` assert and returns the unit-mismatch error
instead of accepting the arguments. -/
theorem plane_kernel_rejects_scale_mismatch :
    millimetre.dims = metre.dims ∧ millimetre ≠ metre ∧
    potential_of_plane (⟨1, millimetre⟩ : Quantity ℚ) ⟨0, metre⟩ ⟨1, ampPerM2⟩
        ⟨3 / 10, siemensPerMetre⟩ = Except.error ⟨[millimetre, metre]⟩ := by
  refine ⟨rfl, by with_unfolding_all decide, ?_⟩
  rw [potential_of_plane, if_neg (by with_unfolding_all decide)]

/-- C7 amended: quantity arithmetic between operands of equal dimension
but different scale is reconciled to the left operand's unit with a
scale-correct magnitude (`physVal` is preserved), but the potential
kernels — plane, disk and cylinder — require the field point and source
position to carry exactly the same unit, scale included, and reject
same-dimension, different-scale positional arguments with a
unit-mismatch error. -/
theorem arithmetic_reconciles_kernels_reject
    (a b z_j z_i C_i R_i h_i sigma : Quantity ℝ)
    (hd : a.units.dims = b.units.dims) (hs : a.units.scale ≠ 0)
    (hzd : z_j.units.dims = z_i.units.dims) (hzne : z_j.units ≠ z_i.units) :
    physVal (qsub a b) = physVal a - physVal b ∧
    physVal (qadd a b) = physVal a + physVal b ∧
    (qsub a b).units = a.units ∧
    potential_of_plane z_j z_i C_i sigma =
      Except.error ⟨[z_j.units, z_i.units]⟩ ∧
    potential_of_disk z_j z_i C_i R_i sigma =
      Except.error ⟨[z_j.units, z_i.units, R_i.units]⟩ ∧
    potential_of_cylinder z_j z_i C_i R_i h_i sigma =
      Except.error ⟨[z_j.units, z_i.units, R_i.units, h_i.units]⟩ := by
  have hz : z_j.units.dims = z_i.units.dims := hzd
  exact ⟨physVal_qsub_of_dims a b hd hs, physVal_qadd_of_dims a b hd hs,
    qsub_units a b, by rw [potential_of_plane, if_neg hzne],
    by rw [potential_of_disk, if_neg (fun h => hzne h.1)],
    by rw [potential_of_cylinder, if_neg (fun h => hzne h.1)]⟩

/-- Witness for the amended C7: millimetre against metre operands. -/
theorem arithmetic_reconciles_kernels_reject_witness :
    ((⟨1, millimetre⟩ : Quantity ℝ).units.dims = (⟨1, metre⟩ : Quantity ℝ).units.dims ∧
        (⟨1, millimetre⟩ : Quantity ℝ).units.scale ≠ 0 ∧
        (⟨2, millimetre⟩ : Quantity ℝ).units.dims = (⟨0, metre⟩ : Quantity ℝ).units.dims ∧
        (⟨2, millimetre⟩ : Quantity ℝ).units ≠ (⟨0, metre⟩ : Quantity ℝ).units) ∧
      (physVal (qsub (⟨1, millimetre⟩ : Quantity ℝ) ⟨1, metre⟩) =
          physVal (⟨1, millimetre⟩ : Quantity ℝ) - physVal (⟨1, metre⟩ : Quantity ℝ) ∧
        physVal (qadd (⟨1, millimetre⟩ : Quantity ℝ) ⟨1, metre⟩) =
          physVal (⟨1, millimetre⟩ : Quantity ℝ) + physVal (⟨1, metre⟩ : Quantity ℝ) ∧
        (qsub (⟨1, millimetre⟩ : Quantity ℝ) ⟨1, metre⟩).units =
          (⟨1, millimetre⟩ : Quantity ℝ).units ∧
        potential_of_plane (⟨2, millimetre⟩ : Quantity ℝ) ⟨0, metre⟩ ⟨1, ampPerM2⟩
            ⟨3 / 10, siemensPerMetre⟩ = Except.error ⟨[millimetre, metre]⟩ ∧
        potential_of_disk (⟨2, millimetre⟩ : Quantity ℝ) ⟨0, metre⟩ ⟨1, ampPerM2⟩
            ⟨1, metre⟩ ⟨3 / 10, siemensPerMetre⟩ =
          Except.error ⟨[millimetre, metre, metre]⟩ ∧
        potential_of_cylinder (⟨2, millimetre⟩ : Quantity ℝ) ⟨0, metre⟩ ⟨1, ampPerM2⟩
            ⟨1, metre⟩ ⟨1, metre⟩ ⟨3 / 10, siemensPerMetre⟩ =
          Except.error ⟨[millimetre, metre, metre, metre]⟩) :=
  ⟨⟨rfl, by with_unfolding_all decide, rfl, by with_unfolding_all decide⟩,
    arithmetic_reconciles_kernels_reject _ _ _ _ _ _ _ _ rfl
      (by with_unfolding_all decide) rfl (by with_unfolding_all decide)⟩

/-- C10: with the field point and source position carrying the same
unit, the plane and disk kernels are symmetric in `z_j` and `z_i`,
since each depends on the positions only through `|z_j - z_i|`. -/
theorem plane_disk_kernel_symmetry (z_j z_i C_i R_i sigma : Quantity ℝ)
    (hu : z_j.units = z_i.units) :
    potential_of_plane z_j z_i C_i sigma = potential_of_plane z_i z_j C_i sigma ∧
    potential_of_disk z_j z_i C_i R_i sigma =
      potential_of_disk z_i z_j C_i R_i sigma := by
  have habs : qabs (qsub z_j z_i) = qabs (qsub z_i z_j) := by
    rw [qsub_of_units _ _ hu, qsub_of_units _ _ hu.symm]
    show (⟨|z_j.mag - z_i.mag|, z_j.units⟩ : Quantity ℝ) = ⟨|z_i.mag - z_j.mag|, z_i.units⟩
    rw [abs_sub_comm, hu]
  constructor
  · rw [potential_of_plane, potential_of_plane, if_pos hu, if_pos hu.symm]
    unfold planeCore
    rw [habs]
  · rw [potential_of_disk, potential_of_disk]
    by_cases hR : z_i.units = R_i.units
    · rw [if_pos ⟨hu, hR⟩, if_pos ⟨hu.symm, hu.trans hR⟩]
      have hT : (⟨Real.sqrt ((z_j.mag - z_i.mag) ^ 2 + R_i.mag ^ 2), z_j.units⟩ :
          Quantity ℝ) = ⟨Real.sqrt ((z_i.mag - z_j.mag) ^ 2 + R_i.mag ^ 2), z_i.units⟩ := by
        rw [show (z_j.mag - z_i.mag) ^ 2 = (z_i.mag - z_j.mag) ^ 2 by ring, hu]
      unfold diskCore
      rw [hT, habs]
    · rw [if_neg (fun h => hR h.2), if_neg (fun h => hR (hu.symm.trans h.2))]
      rw [hu]

/-- Witness for C10 at `z_j = 2 m`, `z_i = 5 m`. -/
theorem plane_disk_kernel_symmetry_witness :
    (⟨2, metre⟩ : Quantity ℝ).units = (⟨5, metre⟩ : Quantity ℝ).units ∧
      (potential_of_plane (⟨2, metre⟩ : Quantity ℝ) ⟨5, metre⟩ ⟨1, ampPerM2⟩
          ⟨3 / 10, siemensPerMetre⟩ =
        potential_of_plane (⟨5, metre⟩ : Quantity ℝ) ⟨2, metre⟩ ⟨1, ampPerM2⟩
          ⟨3 / 10, siemensPerMetre⟩ ∧
        potential_of_disk (⟨2, metre⟩ : Quantity ℝ) ⟨5, metre⟩ ⟨1, ampPerM2⟩
          ⟨1, metre⟩ ⟨3 / 10, siemensPerMetre⟩ =
        potential_of_disk (⟨5, metre⟩ : Quantity ℝ) ⟨2, metre⟩ ⟨1, ampPerM2⟩
          ⟨1, metre⟩ ⟨3 / 10, siemensPerMetre⟩) :=
  ⟨rfl, plane_disk_kernel_symmetry _ _ _ _ _ rfl⟩

section SynthesizerLemmas

variable {α : Type} [LinearOrderedField α]

theorem planeCore_units (z_j z_i C_i sigma : Quantity α) :
    (planeCore z_j z_i C_i sigma).units =
      (C_i.units / sigma.units) * ⟨1, z_j.units.dims⟩ := by
  show (qdiv (qneg C_i) (qsmul 2 sigma)).units *
    (qsimplified (qabs (qsub z_j z_i))).units = _
  rw [qsimplified_units, qabs_units, qsub_units]
  rfl

theorem planeCore_units_dims (z_j z_i C_i sigma : Quantity α) :
    (planeCore z_j z_i C_i sigma).units.dims =
      (C_i.units.dims - sigma.units.dims) + z_j.units.dims := by
  rw [planeCore_units]
  rfl

theorem physVal_qadd_volt (a b : Quantity α) (ha : a.units = volt)
    (hb : b.units.dims = volt.dims) :
    physVal (qadd a b) = physVal a + physVal b ∧ (qadd a b).units = volt := by
  refine ⟨physVal_qadd_of_dims a b (by rw [ha, hb]) ?_, by rw [qadd_units, ha]⟩
  rw [ha]
  with_unfolding_all decide

theorem addPlaneSource_ok {u : PhysUnit} (sigma zi ci : Quantity α)
    (hzi : zi.units = u) :
    ∀ acc z_jl : List (Quantity α), (∀ q ∈ z_jl, q.units = u) →
      addPlaneSource sigma acc z_jl zi ci =
        Except.ok (List.zipWith
          (fun phi zj => qadd phi (planeCore zj zi ci sigma)) acc z_jl) := by
  intro acc
  induction acc with
  | nil => intro z_jl _; cases z_jl <;> simp [addPlaneSource]
  | cons a as ih =>
    intro z_jl h
    cases z_jl with
    | nil => simp [addPlaneSource]
    | cons zj zjs =>
      have hcheck : zj.units = zi.units := by
        rw [h zj (List.mem_cons_self _ _), hzi]
      simp only [addPlaneSource, potential_of_plane, if_pos hcheck,
        ih zjs (fun q hq => h q (List.mem_cons_of_mem _ hq)), List.zipWith_cons_cons]
      rfl

theorem foldl_addPlaneSource_ok {u : PhysUnit} (sigma : Quantity α)
    (z_jl : List (Quantity α)) (hz : ∀ q ∈ z_jl, q.units = u) :
    ∀ srcs : List (Quantity α × Quantity α), (∀ p ∈ srcs, p.1.units = u) →
      ∀ acc : List (Quantity α),
      srcs.foldlM (fun acc p => addPlaneSource sigma acc z_jl p.1 p.2) acc =
        Except.ok (srcs.foldl
          (fun acc p => List.zipWith
            (fun phi zj => qadd phi (planeCore zj p.1 p.2 sigma)) acc z_jl) acc) := by
  intro srcs
  induction srcs with
  | nil => intro _ acc; rfl
  | cons s ss ih =>
    intro h acc
    rw [List.foldlM_cons,
      addPlaneSource_ok sigma s.1 s.2 (h s (List.mem_cons_self _ _)) acc z_jl hz]
    show ss.foldlM _ _ = _
    rw [List.foldl_cons]
    exact ih (fun p hp => h p (List.mem_cons_of_mem _ hp)) _

theorem foldl_zipWith_length (sigma : Quantity α) (z_jl : List (Quantity α)) :
    ∀ srcs : List (Quantity α × Quantity α), ∀ acc : List (Quantity α),
      acc.length = z_jl.length →
      (srcs.foldl (fun acc p => List.zipWith
        (fun phi zj => qadd phi (planeCore zj p.1 p.2 sigma)) acc z_jl) acc).length =
        z_jl.length := by
  intro srcs
  induction srcs with
  | nil => intro acc h; exact h
  | cons s ss ih =>
    intro acc h
    rw [List.foldl_cons]
    exact ih _ (by rw [List.length_zipWith, h, Nat.min_self])

theorem getD_zipWith {β : Type} (f : β → β → β) :
    ∀ (as bs : List β) (j : Nat), j < as.length → j < bs.length →
      ∀ d : β,
      (List.zipWith f as bs).getD j d = f (as.getD j d) (bs.getD j d) := by
  intro as
  induction as with
  | nil => intro bs j h; exact absurd h (by simp)
  | cons a as ih =>
    intro bs j h1 h2 d
    cases bs with
    | nil => exact absurd h2 (by simp)
    | cons b bs =>
      cases j with
      | zero => rfl
      | succ j =>
        show (List.zipWith f as bs).getD j d = _
        exact ih bs j (by simpa using h1) (by simpa using h2) d

theorem getD_map_const {β : Type} (c : β) :
    ∀ (l : List β) (j : Nat), j < l.length → ∀ d : β,
      (l.map (fun _ => c)).getD j d = c := by
  intro l
  induction l with
  | nil => intro j h; exact absurd h (by simp)
  | cons a as ih =>
    intro j h d
    cases j with
    | zero => rfl
    | succ j => exact ih j (by simpa using h) d

theorem foldl_step_getD (sigma : Quantity α) (z_jl : List (Quantity α)) (j : Nat)
    (hj : j < z_jl.length) (d : Quantity α) :
    ∀ srcs : List (Quantity α × Quantity α), ∀ acc : List (Quantity α),
      acc.length = z_jl.length →
      (srcs.foldl (fun acc p => List.zipWith
        (fun phi zj => qadd phi (planeCore zj p.1 p.2 sigma)) acc z_jl) acc).getD j d =
        srcs.foldl (fun v p => qadd v (planeCore (z_jl.getD j d) p.1 p.2 sigma))
          (acc.getD j d) := by
  intro srcs
  induction srcs with
  | nil => intro acc _; rfl
  | cons s ss ih =>
    intro acc hlen
    rw [List.foldl_cons, List.foldl_cons,
      ih _ (by rw [List.length_zipWith, hlen, Nat.min_self]),
      getD_zipWith _ _ _ j (by omega) hj d]

theorem physVal_foldl_qadd (sigma zjq : Quantity α) :
    ∀ srcs : List (Quantity α × Quantity α),
      (∀ p ∈ srcs, (planeCore zjq p.1 p.2 sigma).units.dims = volt.dims) →
      ∀ v : Quantity α, v.units = volt →
      physVal (srcs.foldl (fun v p => qadd v (planeCore zjq p.1 p.2 sigma)) v) =
          physVal v +
            (srcs.map (fun p => physVal (planeCore zjq p.1 p.2 sigma))).sum ∧
        (srcs.foldl (fun v p => qadd v (planeCore zjq p.1 p.2 sigma)) v).units =
          volt := by
  intro srcs
  induction srcs with
  | nil => intro _ v hv; simpa using hv
  | cons s ss ih =>
    intro h v hv
    obtain ⟨hstep, hunits⟩ :=
      physVal_qadd_volt v (planeCore zjq s.1 s.2 sigma) hv (h s (List.mem_cons_self _ _))
    rw [List.foldl_cons]
    obtain ⟨hrec, hru⟩ := ih (fun p hp => h p (List.mem_cons_of_mem _ hp)) _ hunits
    refine ⟨?_, hru⟩
    rw [hrec, hstep, List.map_cons, List.sum_cons]
    ring

end SynthesizerLemmas

theorem getD_mem_of_lt {β : Type} :
    ∀ (l : List β) (j : Nat), j < l.length → ∀ d : β, l.getD j d ∈ l := by
  intro l
  induction l with
  | nil => intro j h; exact absurd h (by simp)
  | cons a as ih =>
    intro j h d
    cases j with
    | zero => exact List.mem_cons_self _ _
    | succ j => exact List.mem_cons_of_mem _ (ih j (by simpa using h) d)

theorem get_lfp_of_planes_ok {α : Type} [LinearOrderedField α] {u : PhysUnit}
    (z_j : List (Quantity α)) (sigma : Quantity α) (hzj : ∀ q ∈ z_j, q.units = u)
    (zl Cl : List (Quantity α)) (hz : ∀ q ∈ zl, q.units = u) :
    get_lfp_of_planes z_j zl Cl sigma false =
      Except.ok ((zl.zip Cl).foldl
        (fun acc p => List.zipWith
          (fun phi zj => qadd phi (planeCore zj p.1 p.2 sigma)) acc z_j)
        (z_j.map fun _ => ⟨0, volt⟩), Cl) := by
  have hsrc : ∀ p ∈ zl.zip Cl, p.1.units = u := by
    intro p hp
    obtain ⟨x, y⟩ := p
    exact hz x (List.of_mem_zip hp).1
  simp only [get_lfp_of_planes]
  rw [foldl_addPlaneSource_ok sigma z_j hzj (zl.zip Cl) hsrc]
  rfl

/-- The plane half of C8 (unchanged from the plane-only development):
trace entries are sums of plane-kernel contributions and the trace of a
concatenation of source lists is the elementwise sum of the separate
traces. -/
theorem lfp_superposition_planes {α : Type} [LinearOrderedField α]
    (z_j z_i1 C1 z_i2 C2 : List (Quantity α)) (sigma : Quantity α)
    (u : PhysUnit) (cd : SIDims)
    (hzj : ∀ q ∈ z_j, q.units = u)
    (hzi1 : ∀ q ∈ z_i1, q.units = u) (hzi2 : ∀ q ∈ z_i2, q.units = u)
    (hC1 : ∀ q ∈ C1, q.units.dims = cd) (hC2 : ∀ q ∈ C2, q.units.dims = cd)
    (hl1 : z_i1.length = C1.length)
    (hv : (cd - sigma.units.dims) + u.dims = volt.dims) :
    ∃ t t1 t2 : List (Quantity α),
      get_lfp_of_planes z_j (z_i1 ++ z_i2) (C1 ++ C2) sigma false =
        Except.ok (t, C1 ++ C2) ∧
      get_lfp_of_planes z_j z_i1 C1 sigma false = Except.ok (t1, C1) ∧
      get_lfp_of_planes z_j z_i2 C2 sigma false = Except.ok (t2, C2) ∧
      t.length = z_j.length ∧
      ∀ j, j < z_j.length → ∀ d : Quantity α,
        physVal (t.getD j d) =
          (((z_i1 ++ z_i2).zip (C1 ++ C2)).map
            (fun p => physVal (planeCore (z_j.getD j d) p.1 p.2 sigma))).sum ∧
        physVal (t.getD j d) = physVal (t1.getD j d) + physVal (t2.getD j d) := by
  have hzi12 : ∀ q ∈ z_i1 ++ z_i2, q.units = u := by
    intro q hq
    exact (List.mem_append.mp hq).elim (hzi1 q) (hzi2 q)
  have hinit_len : (z_j.map fun _ => (⟨0, volt⟩ : Quantity α)).length = z_j.length :=
    List.length_map _ _
  refine ⟨_, _, _, get_lfp_of_planes_ok z_j sigma hzj _ _ hzi12,
    get_lfp_of_planes_ok z_j sigma hzj _ _ hzi1,
    get_lfp_of_planes_ok z_j sigma hzj _ _ hzi2,
    foldl_zipWith_length sigma z_j _ _ hinit_len, ?_⟩
  intro j hj d
  have hzju : (z_j.getD j d).units = u := hzj _ (getD_mem_of_lt z_j j hj d)
  have hcoredims : ∀ zl Cl : List (Quantity α), (∀ q ∈ Cl, q.units.dims = cd) →
      ∀ p ∈ zl.zip Cl,
      (planeCore (z_j.getD j d) p.1 p.2 sigma).units.dims = volt.dims := by
    intro zl Cl hCl p hp
    obtain ⟨x, y⟩ := p
    rw [planeCore_units_dims, hCl y (List.of_mem_zip hp).2, hzju]
    exact hv
  have hinit_val : (z_j.map fun _ => (⟨0, volt⟩ : Quantity α)).getD j d = ⟨0, volt⟩ :=
    getD_map_const _ _ j hj d
  have hphys0 : physVal (⟨0, volt⟩ : Quantity α) = 0 := by
    simp [physVal]
  have hzip : (z_i1 ++ z_i2).zip (C1 ++ C2) = z_i1.zip C1 ++ z_i2.zip C2 :=
    List.zip_append hl1
  have hg12 := foldl_step_getD sigma z_j j hj d ((z_i1 ++ z_i2).zip (C1 ++ C2)) _ hinit_len
  have hg1 := foldl_step_getD sigma z_j j hj d (z_i1.zip C1) _ hinit_len
  have hg2 := foldl_step_getD sigma z_j j hj d (z_i2.zip C2) _ hinit_len
  obtain ⟨hsum1, hu1⟩ := physVal_foldl_qadd sigma (z_j.getD j d) (z_i1.zip C1)
    (hcoredims _ _ hC1) ⟨0, volt⟩ rfl
  obtain ⟨hsum2, _⟩ := physVal_foldl_qadd sigma (z_j.getD j d) (z_i2.zip C2)
    (hcoredims _ _ hC2) _ hu1
  obtain ⟨hsum2', _⟩ := physVal_foldl_qadd sigma (z_j.getD j d) (z_i2.zip C2)
    (hcoredims _ _ hC2) ⟨0, volt⟩ rfl
  constructor
  · obtain ⟨hsum12, _⟩ := physVal_foldl_qadd sigma (z_j.getD j d)
      ((z_i1 ++ z_i2).zip (C1 ++ C2))
      (fun p hp => by
        rw [hzip] at hp
        exact (List.mem_append.mp hp).elim
          (hcoredims _ _ hC1 p) (hcoredims _ _ hC2 p)) ⟨0, volt⟩ rfl
    rw [hg12, hinit_val, hsum12, hphys0, zero_add]
  · rw [hg12, hg1, hg2, hinit_val, hzip, List.foldl_append, hsum2, hsum1, hphys0,
      hsum2', hphys0]
    ring

/-- Concrete inputs for the C8 witness. -/
def w8z : List (Quantity ℚ) := [⟨1, metre⟩]

def w8zi1 : List (Quantity ℚ) := [⟨0, metre⟩]

def w8C1 : List (Quantity ℚ) := [⟨1, ampPerM2⟩]

def w8zi2 : List (Quantity ℚ) := [⟨2, metre⟩]

def w8C2 : List (Quantity ℚ) := [⟨2, ampPerM2⟩]

def w8sigma : Quantity ℚ := ⟨3 / 10, siemensPerMetre⟩


section RoundTrip

theorem physVal_rescaleQ (k : ℚ) (hk : k ≠ 0) (q : Quantity ℚ) :
    physVal (rescaleQ k q) = physVal q := by
  simp only [physVal, rescaleQ, Rat.cast_id]
  field_simp
  ring

theorem rescaleQ_dims (k : ℚ) (q : Quantity ℚ) :
    (rescaleQ k q).units.dims = q.units.dims := rfl

theorem map_physVal_rescaleQ (l : List (Quantity ℚ)) (k : ℚ) (hk : k ≠ 0) :
    (l.map (rescaleQ k)).map physVal = l.map physVal := by
  rw [List.map_map]
  have hfun : physVal ∘ rescaleQ k = (physVal : Quantity ℚ → ℚ) :=
    funext fun q => physVal_rescaleQ k hk q
  rw [hfun]

theorem headD_dims_rescaleQ (l : List (Quantity ℚ)) (k : ℚ) (dflt : Quantity ℚ) :
    ((l.map (rescaleQ k)).headD dflt).units.dims = (l.headD dflt).units.dims := by
  cases l
  · rfl
  · rfl

theorem StandardCSD_rescale (lfp coord : List (Quantity ℚ)) (sigma : Quantity ℚ)
    (f g h : ℚ) (hf : f ≠ 0) (hg : g ≠ 0) (hh : h ≠ 0) :
    StandardCSD (lfp.map (rescaleQ f)) (coord.map (rescaleQ g)) (rescaleQ h sigma) =
      StandardCSD lfp coord sigma := by
  unfold StandardCSD
  rw [map_physVal_rescaleQ lfp f hf, map_physVal_rescaleQ coord g hg,
    physVal_rescaleQ h hh sigma, headD_dims_rescaleQ lfp f, headD_dims_rescaleQ coord g,
    rescaleQ_dims h sigma]

/-- The plane-kernel half of the C1 round trip, in the
existential-trace form shared with the disk half. -/
theorem standardCSD_roundtrip_aux :
    ∃ phi : List (Quantity ℚ),
      (get_lfp_of_planes z_j21 z_j21 C_true sigma0 false).map Prod.fst =
        Except.ok phi ∧
      StandardCSD phi z_j21 sigma0 = C_true ∧
      (StandardCSD phi z_j21 sigma0).length = 21 ∧
      ∀ q ∈ StandardCSD phi z_j21 sigma0, q.units = ampPerM2 := by
  cases hglfp : get_lfp_of_planes z_j21 z_j21 C_true sigma0 false with
  | error e =>
    have h := scenario_roundtrip
    rw [hglfp] at h
    exact absurd h (by simp [Except.map])
  | ok pr =>
    have h := scenario_roundtrip
    rw [hglfp] at h
    simp only [Except.map] at h
    have h1 : StandardCSD pr.1 z_j21 sigma0 = C_true := Except.ok.inj h
    refine ⟨pr.1, rfl, h1, ?_, ?_⟩
    · rw [h1]
      with_unfolding_all rfl
    · rw [h1]
      with_unfolding_all decide

end RoundTrip

section DiskCylinderSynthesizers

/-- The ok-payload of `potential_of_cylinder` (named for reuse by the
synthesizer lemmas): magnitude `C_i` times the quadrature of the
dimension-stripped integrand, unit reattached algebraically. -/
noncomputable def cylinderCore (z_j z_i C_i R_i h_i sigma : Quantity ℝ) : Quantity ℝ :=
  ⟨C_i.mag * ∫ z in (z_i.mag - h_i.mag / 2)..(z_i.mag + h_i.mag / 2),
      1 / (2 * sigma.mag) * (Real.sqrt ((z - z_j.mag) ^ 2 + R_i.mag ^ 2) - |z - z_j.mag|),
    C_i.units * (z_i.units ^ 2 / sigma.units)⟩

theorem potential_of_cylinder_eq (z_j z_i C_i R_i h_i sigma : Quantity ℝ) :
    potential_of_cylinder z_j z_i C_i R_i h_i sigma =
      if z_j.units = z_i.units ∧ z_i.units = R_i.units ∧ R_i.units = h_i.units then
        Except.ok (cylinderCore z_j z_i C_i R_i h_i sigma)
      else Except.error ⟨[z_j.units, z_i.units, R_i.units, h_i.units]⟩ := rfl

/-- One pass of the inner loop of `get_lfp_of_disks` for a fixed source
`(zi, ci, Ri)`: `phi_j[j] += potential_of_disk(zj, zi, C_i[i], R_i[i],
sigma)`, walking the accumulator and electrodes in lockstep. -/
noncomputable def addDiskSource (sigma : Quantity ℝ) :
    List (Quantity ℝ) → List (Quantity ℝ) → Quantity ℝ → Quantity ℝ → Quantity ℝ →
      Except UnitMismatchError (List (Quantity ℝ))
  | [], _, _, _, _ => Except.ok []
  | _ :: _, [], _, _, _ => Except.ok []
  | phi :: phis, zj :: zjs, zi, ci, Ri => do
    let v ← potential_of_disk zj zi ci Ri sigma
    let rest ← addDiskSource sigma phis zjs zi ci Ri
    pure (qadd phi v :: rest)

/-- `get_lfp_of_disks(z_j, z_i, C_i, R_i, sigma, plot)`: superpose the
disk kernel over the electrode array; `phi_j` starts as
`np.zeros(z_j.size)*pq.V`, the loops run sources-outer and
electrodes-inner, the `plot` flag only gates a diagnostic figure, and
the ground-truth densities are passed through. -/
noncomputable def get_lfp_of_disks (z_j z_i C_i R_i : List (Quantity ℝ))
    (sigma : Quantity ℝ) (plot : Bool) :
    Except UnitMismatchError (List (Quantity ℝ) × List (Quantity ℝ)) := do
  let _ := plot
  let init : List (Quantity ℝ) := z_j.map (fun _ => ⟨0, volt⟩)
  let phi ← ((z_i.zip C_i).zip R_i).foldlM
    (fun acc p => addDiskSource sigma acc z_j p.1.1 p.1.2 p.2) init
  pure (phi, C_i)

/-- One pass of the inner loop of `get_lfp_of_cylinders` for a fixed
source `(zi, ci, Ri, hi)`: `phi_j[j] += potential_of_cylinder(zj, zi,
C_i[i], R_i[i], h_i[i], sigma)`. -/
noncomputable def addCylinderSource (sigma : Quantity ℝ) :
    List (Quantity ℝ) → List (Quantity ℝ) →
      Quantity ℝ → Quantity ℝ → Quantity ℝ → Quantity ℝ →
      Except UnitMismatchError (List (Quantity ℝ))
  | [], _, _, _, _, _ => Except.ok []
  | _ :: _, [], _, _, _, _ => Except.ok []
  | phi :: phis, zj :: zjs, zi, ci, Ri, hi => do
    let v ← potential_of_cylinder zj zi ci Ri hi sigma
    let rest ← addCylinderSource sigma phis zjs zi ci Ri hi
    pure (qadd phi v :: rest)

/-- `get_lfp_of_cylinders(z_j, z_i, C_i, R_i, h_i, sigma, plot)`:
superpose the cylinder kernel over the electrode array, with the same
loop structure, zero-volt start, plot gating and density pass-through
as the other two synthesizers. -/
noncomputable def get_lfp_of_cylinders (z_j z_i C_i R_i h_i : List (Quantity ℝ))
    (sigma : Quantity ℝ) (plot : Bool) :
    Except UnitMismatchError (List (Quantity ℝ) × List (Quantity ℝ)) := do
  let _ := plot
  let init : List (Quantity ℝ) := z_j.map (fun _ => ⟨0, volt⟩)
  let phi ← ((z_i.zip C_i).zip (R_i.zip h_i)).foldlM
    (fun acc p => addCylinderSource sigma acc z_j p.1.1 p.1.2 p.2.1 p.2.2) init
  pure (phi, C_i)

end DiskCylinderSynthesizers

section QuadBlackBox

/-- The cylinder kernel with its quadrature routine abstracted behind
the spec's narrow interface (a black box taking the integrand and the
bounds and returning the approximate value together with the achieved
error estimate).  It mirrors the source line by line: after the unit
check the dimension-stripped integrand is handed to the routine, the
returned pair is scaled by `C_i` and unpacked into `phi_j` and
`abserr`, and only `phi_j * z_i.units**2 / sigma.units` is returned —
the achieved error estimate `abserr` is discarded. -/
noncomputable def potential_of_cylinder_quad
    (quad : (ℝ → ℝ) → ℝ → ℝ → ℝ × ℝ)
    (z_j z_i C_i R_i h_i sigma : Quantity ℝ) :
    Except UnitMismatchError (Quantity ℝ) :=
  if z_j.units = z_i.units ∧ z_i.units = R_i.units ∧ R_i.units = h_i.units then
    let res := quad
      (fun z => 1 / (2 * sigma.mag) * (Real.sqrt ((z - z_j.mag) ^ 2 + R_i.mag ^ 2) -
        |z - z_j.mag|))
      (z_i.mag - h_i.mag / 2) (z_i.mag + h_i.mag / 2)
    let phi_j : Quantity ℝ := ⟨C_i.mag * res.1, C_i.units⟩
    let abserr : ℝ := C_i.mag * res.2
    Except.ok (qmul phi_j ⟨1, z_i.units ^ 2 / sigma.units⟩)
  else Except.error ⟨[z_j.units, z_i.units, R_i.units, h_i.units]⟩

/-- The exact-integration instantiation of the quadrature black box:
value is the interval integral, achieved error 0. -/
noncomputable def exactQuad (f : ℝ → ℝ) (a b : ℝ) : ℝ × ℝ :=
  (∫ z in a..b, f z, 0)

end QuadBlackBox

section EstimatorModels

/-- The SI-base disk kernel response: potential at `zj` of a unit areal
density disk at `zi` with radius `R` in a medium of conductivity `s`. -/
noncomputable def diskKernelPhys (zj zi R s : ℝ) : ℝ :=
  1 / (2 * s) * (Real.sqrt ((zj - zi) ^ 2 + R ^ 2) - |zj - zi|)

/-- The SI-base cylinder kernel response: potential at `zj` of a unit
volumetric density cylinder at `zi` with radius `R` and thickness `h`. -/
noncomputable def cylKernelPhys (zj zi R h s : ℝ) : ℝ :=
  ∫ z in (zi - h / 2)..(zi + h / 2),
    1 / (2 * s) * (Real.sqrt ((z - zj) ^ 2 + R ^ 2) - |z - zj|)

/-- The disk forward matrix over the electrode positions `zs` (SI base
values): entry `(j, i)` is the potential at electrode `j` of a unit
areal density disk at electrode `i`. -/
noncomputable def deltaMatrix (zs : List ℝ) (R s : ℝ) :
    Matrix (Fin zs.length) (Fin zs.length) ℝ :=
  Matrix.of fun j i => diskKernelPhys (zs.getD j.1 0) (zs.getD i.1 0) R s

/-- Magnitude part of the modelled delta estimator: apply the inverse
of the disk forward matrix to the SI-base trace. -/
noncomputable def deltaSol (zs phis : List ℝ) (R s : ℝ) : List ℝ :=
  (List.finRange zs.length).map
    (fun j => (deltaMatrix zs R s)⁻¹.mulVec (fun i => phis.getD i.1 0) j)

/-- Modelled from the spec: the external inverse estimator
`icsd.DeltaiCSD` (module `icsd`, not under src/).  Per the spec it
answers the reverse question of the disk forward model: it receives
`lfp`, `coord_electrode`, the source `diam`, and the conductivities,
reconciles unit scales to the SI base, inverts the disk forward matrix
assembled from its inputs, and returns one density value per electrode
with the derived areal-density unit
(potential x conductivity / length), never hardcoded.  `sigma_top`
only shapes the asymmetric-boundary variant and the validation
scenarios pass `sigma_top = sigma`, so it does not enter the modelled
symmetric forward matrix; the smoothing-filter options are
presentation-stage and not modelled. -/
noncomputable def DeltaiCSD (lfp coord_electrode : List (Quantity ℝ))
    (diam sigma sigma_top : Quantity ℝ) : List (Quantity ℝ) :=
  (deltaSol (coord_electrode.map physVal) (lfp.map physVal)
      (physVal diam / 2) (physVal sigma)).map
    (fun x => ⟨x, ⟨1, ((lfp.headD ⟨0, volt⟩).units.dims + sigma.units.dims) -
      (coord_electrode.headD ⟨0, metre⟩).units.dims⟩⟩)

/-- The cylinder forward matrix over the electrode positions `zs` with
per-source thicknesses `hs` (SI base values). -/
noncomputable def stepMatrix (zs hs : List ℝ) (R s : ℝ) :
    Matrix (Fin zs.length) (Fin zs.length) ℝ :=
  Matrix.of fun j i => cylKernelPhys (zs.getD j.1 0) (zs.getD i.1 0) R (hs.getD i.1 0) s

/-- Magnitude part of the modelled step estimator: apply the inverse of
the cylinder forward matrix to the SI-base trace. -/
noncomputable def stepSol (zs phis hs : List ℝ) (R s : ℝ) : List ℝ :=
  (List.finRange zs.length).map
    (fun j => (stepMatrix zs hs R s)⁻¹.mulVec (fun i => phis.getD i.1 0) j)

/-- Modelled from the spec: the external inverse estimator
`icsd.StepiCSD` (module `icsd`, not under src/), the cylinder/step
basis variant.  As with the delta variant it answers the reverse
question of its (cylinder) forward model on SI-base values and returns
per-electrode densities with the derived volumetric-density unit
(potential x conductivity / length^2); `tol` is the quadrature
tolerance passed through to the integration (the integral is idealized
as exact), `sigma_top` as in the delta variant. -/
noncomputable def StepiCSD (lfp coord_electrode : List (Quantity ℝ))
    (diam sigma sigma_top : Quantity ℝ) (h : List (Quantity ℝ)) (tol : ℝ) :
    List (Quantity ℝ) :=
  let _ := tol
  (stepSol (coord_electrode.map physVal) (lfp.map physVal) (h.map physVal)
      (physVal diam / 2) (physVal sigma)).map
    (fun x => ⟨x, ⟨1, ((lfp.headD ⟨0, volt⟩).units.dims + sigma.units.dims) -
      ((coord_electrode.headD ⟨0, metre⟩).units.dims +
        (coord_electrode.headD ⟨0, metre⟩).units.dims)⟩⟩)

/-- Re-express a real-magnitude quantity in a dimensionally consistent
rescaled unit: magnitude grows by the rational factor `f`, unit scale
shrinks by `f`; the physical value is unchanged for `f` positive. -/
noncomputable def rescaleR (f : ℚ) (q : Quantity ℝ) : Quantity ℝ :=
  ⟨q.mag * (f : ℝ), ⟨q.units.scale / f, q.units.dims⟩⟩

end EstimatorModels

section ScenarioR

/-- The validation scenario's electrode array over real magnitudes. -/
noncomputable def z21R : List (Quantity ℝ) :=
  (List.range 21).map (fun (j : ℕ) => ⟨(j : ℝ) / 10000, metre⟩)

/-- The scenario's ground-truth density magnitude at electrode `i`:
zero except `[-0.5, 1, -0.5]` at indices 7, 9, 11. -/
noncomputable def cval (i : ℕ) : ℝ :=
  if i = 7 then -(1 / 2) else if i = 9 then 1 else if i = 11 then -(1 / 2) else 0

/-- The validation scenario's ground-truth areal density over real
magnitudes. -/
noncomputable def C_trueR : List (Quantity ℝ) :=
  (List.range 21).map (fun i => ⟨cval i, ampPerM2⟩)

/-- The disk scenario's source radii `np.ones(21)*1E-3*pq.m`. -/
noncomputable def R21R : List (Quantity ℝ) :=
  (List.range 21).map (fun _ => ⟨1 / 1000, metre⟩)

/-- The scenario conductivity `0.3*pq.S/pq.m` over real magnitudes. -/
noncomputable def sigma0R : Quantity ℝ := ⟨3 / 10, siemensPerMetre⟩

/-- The disk scenario's source diameter `R_i.mean()*2 = 2E-3*pq.m`. -/
noncomputable def diam0R : Quantity ℝ := ⟨1 / 500, metre⟩

end ScenarioR

section DeltaCertificate

/-- 12-decimal-digit rational lower approximations of `sqrt(m^2 + 100)`
for `m = 0..20` (certificate data for the disk forward matrix). -/
def deltaRtab : List ℚ :=
  [10, 7851465329 / 781250000, 2039607805437 / 200000000000, 1044030650891 /
  100000000000, 10770329614269 / 1000000000000, 5590169943749 / 500000000000,
  1166190378969 / 100000000000, 12206555615733 / 1000000000000, 2561249694973
  / 200000000000, 13453624047073 / 1000000000000, 1414213562373 /
  100000000000, 7433034373659 / 500000000000, 15620499351813 / 1000000000000,
  2050152433357 / 125000000000, 3440930106817 / 200000000000, 18027756377319 /
  1000000000000, 18867962264113 / 1000000000000, 4930770730829 / 250000000000,
  10295630140987 / 500000000000, 21470910553583 / 1000000000000,
  22360679774997 / 1000000000000]

/-- Rational approximate inverse of the scenario's disk forward matrix
(certificate data; each entry rounded to denominator `10^8`). -/
def deltaBmat : List (List ℚ) :=
  [[331981461207 / 100000000, (-11945409547 / 4000000 : ℚ), 436642787 /
  50000000, 425307053 / 100000000, 61967459 / 100000000, (-25216557 / 12500000
  : ℚ), (-93068521 / 25000000 : ℚ), (-468032701 / 100000000 : ℚ), (-63801251 /
  12500000 : ℚ), (-51835619 / 10000000 : ℚ), (-31639431 / 6250000 : ℚ),
  (-483786671 / 100000000 : ℚ), (-457073451 / 100000000 : ℚ), (-214754039 /
  50000000 : ℚ), (-201385347 / 50000000 : ℚ), (-377446789 / 100000000 : ℚ),
  (-70690691 / 20000000 : ℚ), (-20645439 / 6250000 : ℚ), (-76861451 / 25000000
  : ℚ), (-56846467 / 20000000 : ℚ), (-189109121 / 10000000 : ℚ)],
  [(-11945409547 / 4000000 : ℚ), 300304600463 / 50000000, (-299422425267 /
  100000000 : ℚ), 244473801 / 50000000, 367682313 / 100000000, 48284657 /
  20000000, 32749523 / 25000000, 46452253 / 100000000, (-2267599 / 20000000 :
  ℚ), (-9344861 / 20000000 : ℚ), (-65730013 / 100000000 : ℚ), (-73922361 /
  100000000 : ℚ), (-75577189 / 100000000 : ℚ), (-14723049 / 20000000 : ℚ),
  (-13972039 / 20000000 : ℚ), (-4084847 / 6250000 : ℚ), (-30322739 / 50000000
  : ℚ), (-27976741 / 50000000 : ℚ), (-2053609 / 4000000 : ℚ), (-46788917 /
  100000000 : ℚ), (-56846467 / 20000000 : ℚ)],
  [436642787 / 50000000, (-299422425267 / 100000000 : ℚ), 300305627387 /
  50000000, (-18713848107 / 6250000 : ℚ), 488827793 / 100000000, 183424517 /
  50000000, 4802417 / 2000000, 129422081 / 100000000, 71587 / 160000,
  (-13092877 / 100000000 : ℚ), (-24235081 / 50000000 : ℚ), (-13487209 /
  20000000 : ℚ), (-15113701 / 20000000 : ℚ), (-77144019 / 100000000 : ℚ),
  (-75075459 / 100000000 : ℚ), (-2224119 / 3125000 : ℚ), (-66460037 /
  100000000 : ℚ), (-61461357 / 100000000 : ℚ), (-56398091 / 100000000 : ℚ),
  (-2053609 / 4000000 : ℚ), (-76861451 / 25000000 : ℚ)],
  [425307053 / 100000000, 244473801 / 50000000, (-18713848107 / 6250000 : ℚ),
  600611514919 / 100000000, (-149710898119 / 50000000 : ℚ), 24412101 /
  5000000, 366022557 / 100000000, 239148243 / 100000000, 128370421 /
  100000000, 43654507 / 100000000, (-14189449 / 100000000 : ℚ), (-24779383 /
  50000000 : ℚ), (-8562707 / 12500000 : ℚ), (-38295721 / 50000000 : ℚ),
  (-78093457 / 100000000 : ℚ), (-75903773 / 100000000 : ℚ), (-35905723 /
  50000000 : ℚ), (-66825837 / 100000000 : ℚ), (-61461357 / 100000000 : ℚ),
  (-27976741 / 50000000 : ℚ), (-20645439 / 6250000 : ℚ)],
  [61967459 / 100000000, 367682313 / 100000000, 488827793 / 100000000,
  (-149710898119 / 50000000 : ℚ), 120122239561 / 20000000, (-59884437117 /
  20000000 : ℚ), 243898483 / 50000000, 365534431 / 100000000, 119312801 /
  50000000, 12781887 / 10000000, 43078639 / 100000000, (-14783461 / 100000000
  : ℚ), (-3134991 / 6250000 : ℚ), (-34544847 / 50000000 : ℚ), (-77132323 /
  100000000 : ℚ), (-7853433 / 10000000 : ℚ), (-3046819 / 4000000 : ℚ),
  (-35905723 / 50000000 : ℚ), (-66460037 / 100000000 : ℚ), (-30322739 /
  50000000 : ℚ), (-70690691 / 20000000 : ℚ)],
  [(-25216557 / 12500000 : ℚ), 48284657 / 20000000, 183424517 / 50000000,
  24412101 / 5000000, (-59884437117 / 20000000 : ℚ), 150152736019 / 25000000,
  (-74855590307 / 25000000 : ℚ), 9753051 / 2000000, 3653873 / 1000000,
  238453951 / 100000000, 12761141 / 10000000, 8566729 / 20000000, (-15057597 /
  100000000 : ℚ), (-50442283 / 100000000 : ℚ), (-277373 / 400000 : ℚ),
  (-19324829 / 25000000 : ℚ), (-7853433 / 10000000 : ℚ), (-75903773 /
  100000000 : ℚ), (-2224119 / 3125000 : ℚ), (-4084847 / 6250000 : ℚ),
  (-377446789 / 100000000 : ℚ)],
  [(-93068521 / 25000000 : ℚ), 32749523 / 25000000, 4802417 / 2000000,
  366022557 / 100000000, 243898483 / 50000000, (-74855590307 / 25000000 : ℚ),
  300305466197 / 50000000, (-299422294321 / 100000000 : ℚ), 487736579 /
  100000000, 182724449 / 50000000, 119235791 / 50000000, 63789177 / 50000000,
  42756847 / 100000000, (-15156271 / 100000000 : ℚ), (-25261379 / 50000000 :
  ℚ), (-277373 / 400000 : ℚ), (-77132323 / 100000000 : ℚ), (-78093457 /
  100000000 : ℚ), (-75075459 / 100000000 : ℚ), (-13972039 / 20000000 : ℚ),
  (-201385347 / 50000000 : ℚ)],
  [(-468032701 / 100000000 : ℚ), 46452253 / 100000000, 129422081 / 100000000,
  239148243 / 100000000, 365534431 / 100000000, 9753051 / 2000000,
  (-299422294321 / 100000000 : ℚ), 30030555179 / 5000000, (-29942209583 /
  10000000 : ℚ), 487912829 / 100000000, 73115129 / 20000000, 3727179 /
  1562500, 996827 / 781250, 42743129 / 100000000, (-15156271 / 100000000 : ℚ),
  (-50442283 / 100000000 : ℚ), (-34544847 / 50000000 : ℚ), (-38295721 /
  50000000 : ℚ), (-77144019 / 100000000 : ℚ), (-14723049 / 20000000 : ℚ),
  (-214754039 / 50000000 : ℚ)],
  [(-63801251 / 12500000 : ℚ), (-2267599 / 20000000 : ℚ), 71587 / 160000,
  128370421 / 100000000, 119312801 / 50000000, 3653873 / 1000000, 487736579 /
  100000000, (-29942209583 / 10000000 : ℚ), 75076416579 / 12500000,
  (-299421890223 / 100000000 : ℚ), 30504077 / 6250000, 365664503 / 100000000,
  59642889 / 25000000, 996827 / 781250, 42756847 / 100000000, (-15057597 /
  100000000 : ℚ), (-3134991 / 6250000 : ℚ), (-8562707 / 12500000 : ℚ),
  (-15113701 / 20000000 : ℚ), (-75577189 / 100000000 : ℚ), (-457073451 /
  100000000 : ℚ)],
  [(-51835619 / 10000000 : ℚ), (-9344861 / 20000000 : ℚ), (-13092877 /
  100000000 : ℚ), 43654507 / 100000000, 12781887 / 10000000, 238453951 /
  100000000, 182724449 / 50000000, 487912829 / 100000000, (-299421890223 /
  100000000 : ℚ), 600611512693 / 100000000, (-149710882937 / 50000000 : ℚ),
  122030909 / 25000000, 365664503 / 100000000, 3727179 / 1562500, 63789177 /
  50000000, 8566729 / 20000000, (-14783461 / 100000000 : ℚ), (-24779383 /
  50000000 : ℚ), (-13487209 / 20000000 : ℚ), (-73922361 / 100000000 : ℚ),
  (-483786671 / 100000000 : ℚ)],
  [(-31639431 / 6250000 : ℚ), (-65730013 / 100000000 : ℚ), (-24235081 /
  50000000 : ℚ), (-14189449 / 100000000 : ℚ), 43078639 / 100000000, 12761141 /
  10000000, 119235791 / 50000000, 73115129 / 20000000, 30504077 / 6250000,
  (-149710882937 / 50000000 : ℚ), 4804892637 / 800000, (-149710882937 /
  50000000 : ℚ), 30504077 / 6250000, 73115129 / 20000000, 119235791 /
  50000000, 12761141 / 10000000, 43078639 / 100000000, (-14189449 / 100000000
  : ℚ), (-24235081 / 50000000 : ℚ), (-65730013 / 100000000 : ℚ), (-31639431 /
  6250000 : ℚ)],
  [(-483786671 / 100000000 : ℚ), (-73922361 / 100000000 : ℚ), (-13487209 /
  20000000 : ℚ), (-24779383 / 50000000 : ℚ), (-14783461 / 100000000 : ℚ),
  8566729 / 20000000, 63789177 / 50000000, 3727179 / 1562500, 365664503 /
  100000000, 122030909 / 25000000, (-149710882937 / 50000000 : ℚ),
  600611512693 / 100000000, (-299421890223 / 100000000 : ℚ), 487912829 /
  100000000, 182724449 / 50000000, 238453951 / 100000000, 12781887 / 10000000,
  43654507 / 100000000, (-13092877 / 100000000 : ℚ), (-9344861 / 20000000 :
  ℚ), (-51835619 / 10000000 : ℚ)],
  [(-457073451 / 100000000 : ℚ), (-75577189 / 100000000 : ℚ), (-15113701 /
  20000000 : ℚ), (-8562707 / 12500000 : ℚ), (-3134991 / 6250000 : ℚ),
  (-15057597 / 100000000 : ℚ), 42756847 / 100000000, 996827 / 781250, 59642889
  / 25000000, 365664503 / 100000000, 30504077 / 6250000, (-299421890223 /
  100000000 : ℚ), 75076416579 / 12500000, (-29942209583 / 10000000 : ℚ),
  487736579 / 100000000, 3653873 / 1000000, 119312801 / 50000000, 128370421 /
  100000000, 71587 / 160000, (-2267599 / 20000000 : ℚ), (-63801251 / 12500000
  : ℚ)],
  [(-214754039 / 50000000 : ℚ), (-14723049 / 20000000 : ℚ), (-77144019 /
  100000000 : ℚ), (-38295721 / 50000000 : ℚ), (-34544847 / 50000000 : ℚ),
  (-50442283 / 100000000 : ℚ), (-15156271 / 100000000 : ℚ), 42743129 /
  100000000, 996827 / 781250, 3727179 / 1562500, 73115129 / 20000000,
  487912829 / 100000000, (-29942209583 / 10000000 : ℚ), 30030555179 / 5000000,
  (-299422294321 / 100000000 : ℚ), 9753051 / 2000000, 365534431 / 100000000,
  239148243 / 100000000, 129422081 / 100000000, 46452253 / 100000000,
  (-468032701 / 100000000 : ℚ)],
  [(-201385347 / 50000000 : ℚ), (-13972039 / 20000000 : ℚ), (-75075459 /
  100000000 : ℚ), (-78093457 / 100000000 : ℚ), (-77132323 / 100000000 : ℚ),
  (-277373 / 400000 : ℚ), (-25261379 / 50000000 : ℚ), (-15156271 / 100000000 :
  ℚ), 42756847 / 100000000, 63789177 / 50000000, 119235791 / 50000000,
  182724449 / 50000000, 487736579 / 100000000, (-299422294321 / 100000000 :
  ℚ), 300305466197 / 50000000, (-74855590307 / 25000000 : ℚ), 243898483 /
  50000000, 366022557 / 100000000, 4802417 / 2000000, 32749523 / 25000000,
  (-93068521 / 25000000 : ℚ)],
  [(-377446789 / 100000000 : ℚ), (-4084847 / 6250000 : ℚ), (-2224119 / 3125000
  : ℚ), (-75903773 / 100000000 : ℚ), (-7853433 / 10000000 : ℚ), (-19324829 /
  25000000 : ℚ), (-277373 / 400000 : ℚ), (-50442283 / 100000000 : ℚ),
  (-15057597 / 100000000 : ℚ), 8566729 / 20000000, 12761141 / 10000000,
  238453951 / 100000000, 3653873 / 1000000, 9753051 / 2000000, (-74855590307 /
  25000000 : ℚ), 150152736019 / 25000000, (-59884437117 / 20000000 : ℚ),
  24412101 / 5000000, 183424517 / 50000000, 48284657 / 20000000, (-25216557 /
  12500000 : ℚ)],
  [(-70690691 / 20000000 : ℚ), (-30322739 / 50000000 : ℚ), (-66460037 /
  100000000 : ℚ), (-35905723 / 50000000 : ℚ), (-3046819 / 4000000 : ℚ),
  (-7853433 / 10000000 : ℚ), (-77132323 / 100000000 : ℚ), (-34544847 /
  50000000 : ℚ), (-3134991 / 6250000 : ℚ), (-14783461 / 100000000 : ℚ),
  43078639 / 100000000, 12781887 / 10000000, 119312801 / 50000000, 365534431 /
  100000000, 243898483 / 50000000, (-59884437117 / 20000000 : ℚ), 120122239561
  / 20000000, (-149710898119 / 50000000 : ℚ), 488827793 / 100000000, 367682313
  / 100000000, 61967459 / 100000000],
  [(-20645439 / 6250000 : ℚ), (-27976741 / 50000000 : ℚ), (-61461357 /
  100000000 : ℚ), (-66825837 / 100000000 : ℚ), (-35905723 / 50000000 : ℚ),
  (-75903773 / 100000000 : ℚ), (-78093457 / 100000000 : ℚ), (-38295721 /
  50000000 : ℚ), (-8562707 / 12500000 : ℚ), (-24779383 / 50000000 : ℚ),
  (-14189449 / 100000000 : ℚ), 43654507 / 100000000, 128370421 / 100000000,
  239148243 / 100000000, 366022557 / 100000000, 24412101 / 5000000,
  (-149710898119 / 50000000 : ℚ), 600611514919 / 100000000, (-18713848107 /
  6250000 : ℚ), 244473801 / 50000000, 425307053 / 100000000],
  [(-76861451 / 25000000 : ℚ), (-2053609 / 4000000 : ℚ), (-56398091 /
  100000000 : ℚ), (-61461357 / 100000000 : ℚ), (-66460037 / 100000000 : ℚ),
  (-2224119 / 3125000 : ℚ), (-75075459 / 100000000 : ℚ), (-77144019 /
  100000000 : ℚ), (-15113701 / 20000000 : ℚ), (-13487209 / 20000000 : ℚ),
  (-24235081 / 50000000 : ℚ), (-13092877 / 100000000 : ℚ), 71587 / 160000,
  129422081 / 100000000, 4802417 / 2000000, 183424517 / 50000000, 488827793 /
  100000000, (-18713848107 / 6250000 : ℚ), 300305627387 / 50000000,
  (-299422425267 / 100000000 : ℚ), 436642787 / 50000000],
  [(-56846467 / 20000000 : ℚ), (-46788917 / 100000000 : ℚ), (-2053609 /
  4000000 : ℚ), (-27976741 / 50000000 : ℚ), (-30322739 / 50000000 : ℚ),
  (-4084847 / 6250000 : ℚ), (-13972039 / 20000000 : ℚ), (-14723049 / 20000000
  : ℚ), (-75577189 / 100000000 : ℚ), (-73922361 / 100000000 : ℚ), (-65730013 /
  100000000 : ℚ), (-9344861 / 20000000 : ℚ), (-2267599 / 20000000 : ℚ),
  46452253 / 100000000, 32749523 / 25000000, 48284657 / 20000000, 367682313 /
  100000000, 244473801 / 50000000, (-299422425267 / 100000000 : ℚ),
  300304600463 / 50000000, (-11945409547 / 4000000 : ℚ)],
  [(-189109121 / 10000000 : ℚ), (-56846467 / 20000000 : ℚ), (-76861451 /
  25000000 : ℚ), (-20645439 / 6250000 : ℚ), (-70690691 / 20000000 : ℚ),
  (-377446789 / 100000000 : ℚ), (-201385347 / 50000000 : ℚ), (-214754039 /
  50000000 : ℚ), (-457073451 / 100000000 : ℚ), (-483786671 / 100000000 : ℚ),
  (-31639431 / 6250000 : ℚ), (-51835619 / 10000000 : ℚ), (-63801251 / 12500000
  : ℚ), (-468032701 / 100000000 : ℚ), (-93068521 / 25000000 : ℚ), (-25216557 /
  12500000 : ℚ), 61967459 / 100000000, 425307053 / 100000000, 436642787 /
  50000000, (-11945409547 / 4000000 : ℚ), 331981461207 / 100000000]]

/-- Certificate accessor: approximate inverse entry `(j, k)`. -/
def qB (j k : ℕ) : ℚ := (deltaBmat.getD j []).getD k 0

/-- Certificate accessor: `sqrt(m^2+100)` lower approximation. -/
def qRt (m : ℕ) : ℚ := deltaRtab.getD m 0

/-- SI-base scale of the scenario's disk forward matrix: `1E-4/(2*0.3)`. -/
def gammaQ : ℚ := 1 / 6000

/-- Accuracy of the `deltaRtab` approximations. -/
def epsQ : ℚ := 1 / 1000000000000

/-- Rational approximation of the scenario's disk forward matrix entry
`(k, i)`. -/
def qKt (k i : ℕ) : ℚ := gammaQ * (qRt (Nat.dist k i) - (Nat.dist k i : ℚ))

/-- Entry `(j, i)` of the rational residual `B * K~ - 1`. -/
def qErEntry (j i : ℕ) : ℚ :=
  ((List.range 21).map (fun k => qB j k * qKt k i)).sum -
    (if j = i then 1 else 0)

/-- Row-sum bound combining the rational residual with the worst-case
square-root approximation error. -/
def qRowBound (j : ℕ) : ℚ :=
  ((List.range 21).map (fun i => |qErEntry j i|)).sum +
    21 * (((List.range 21).map (fun k => |qB j k|)).sum * (gammaQ * epsQ))

set_option maxRecDepth 100000 in
/-- The square-root table brackets `sqrt(m^2+100)` within `epsQ`. -/
theorem deltaRtab_bounds : ∀ m ∈ List.range 21,
    0 ≤ qRt m ∧ qRt m ^ 2 ≤ (m : ℚ) ^ 2 + 100 ∧
      (m : ℚ) ^ 2 + 100 ≤ (qRt m + epsQ) ^ 2 := by
  with_unfolding_all decide

set_option maxRecDepth 1000000 in
set_option maxHeartbeats 4000000 in
/-- Every row of the certified residual bound is at most `1E-6`. -/
theorem deltaRowBound_le : ∀ j ∈ List.range 21, qRowBound j ≤ 1 / 1000000 := by
  with_unfolding_all decide

end DeltaCertificate

section GenericSynthesizerLemmas

variable {α : Type} [LinearOrderedField α] {τ : Type}

theorem foldl_zipWithG_length (g : Quantity α → τ → Quantity α)
    (z_jl : List (Quantity α)) :
    ∀ (srcs : List τ) (acc : List (Quantity α)), acc.length = z_jl.length →
      (srcs.foldl (fun acc p => List.zipWith
        (fun phi zj => qadd phi (g zj p)) acc z_jl) acc).length = z_jl.length := by
  intro srcs
  induction srcs with
  | nil => intro acc h; exact h
  | cons s ss ih =>
    intro acc h
    rw [List.foldl_cons]
    exact ih _ (by rw [List.length_zipWith, h, Nat.min_self])

theorem foldl_stepG_getD (g : Quantity α → τ → Quantity α)
    (z_jl : List (Quantity α)) (j : Nat) (hj : j < z_jl.length) (d : Quantity α) :
    ∀ (srcs : List τ) (acc : List (Quantity α)), acc.length = z_jl.length →
      (srcs.foldl (fun acc p => List.zipWith
        (fun phi zj => qadd phi (g zj p)) acc z_jl) acc).getD j d =
        srcs.foldl (fun v p => qadd v (g (z_jl.getD j d) p)) (acc.getD j d) := by
  intro srcs
  induction srcs with
  | nil => intro acc _; rfl
  | cons s ss ih =>
    intro acc hlen
    rw [List.foldl_cons, List.foldl_cons,
      ih _ (by rw [List.length_zipWith, hlen, Nat.min_self]),
      getD_zipWith _ _ _ j (by omega) hj d]

theorem physVal_foldl_qaddG (g : τ → Quantity α) :
    ∀ srcs : List τ, (∀ p ∈ srcs, (g p).units.dims = volt.dims) →
      ∀ v : Quantity α, v.units = volt →
      physVal (srcs.foldl (fun v p => qadd v (g p)) v) =
          physVal v + (srcs.map (fun p => physVal (g p))).sum ∧
        (srcs.foldl (fun v p => qadd v (g p)) v).units = volt := by
  intro srcs
  induction srcs with
  | nil => intro _ v hv; simpa using hv
  | cons s ss ih =>
    intro h v hv
    obtain ⟨hstep, hunits⟩ :=
      physVal_qadd_volt v (g s) hv (h s (List.mem_cons_self _ _))
    rw [List.foldl_cons]
    obtain ⟨hrec, hru⟩ := ih (fun p hp => h p (List.mem_cons_of_mem _ hp)) _ hunits
    refine ⟨?_, hru⟩
    rw [hrec, hstep, List.map_cons, List.sum_cons]
    ring

end GenericSynthesizerLemmas

section DiskCylinderLemmas

theorem diskCore_units_dims (z_j z_i C_i R_i sigma : Quantity ℝ) :
    (diskCore z_j z_i C_i R_i sigma).units.dims =
      (C_i.units.dims - sigma.units.dims) + z_j.units.dims := by
  show ((qdiv C_i (qsmul 2 sigma)).units *
    (qsimplified (qsub ⟨Real.sqrt ((z_j.mag - z_i.mag) ^ 2 + R_i.mag ^ 2), z_j.units⟩
      (qabs (qsub z_j z_i)))).units).dims = _
  rw [qsimplified_units, qsub_units]
  rfl

theorem cylinderCore_units_dims (z_j z_i C_i R_i h_i sigma : Quantity ℝ) :
    (cylinderCore z_j z_i C_i R_i h_i sigma).units.dims =
      (C_i.units.dims - sigma.units.dims) + (z_i.units.dims + z_i.units.dims) := by
  show (C_i.units * (z_i.units ^ 2 / sigma.units)).dims = _
  have hpow : (z_i.units ^ 2).dims =
      z_i.units.dims + (z_i.units.dims + ⟨0, 0, 0, 0⟩) := rfl
  rw [PhysUnit.mul_dims, PhysUnit.div_dims, hpow]
  apply SIDims.ext_of <;> simp <;> ring

theorem addDiskSource_ok {u : PhysUnit} (sigma zi ci Ri : Quantity ℝ)
    (hzi : zi.units = u) (hRi : Ri.units = u) :
    ∀ acc z_jl : List (Quantity ℝ), (∀ q ∈ z_jl, q.units = u) →
      addDiskSource sigma acc z_jl zi ci Ri =
        Except.ok (List.zipWith
          (fun phi zj => qadd phi (diskCore zj zi ci Ri sigma)) acc z_jl) := by
  intro acc
  induction acc with
  | nil => intro z_jl _; cases z_jl <;> simp [addDiskSource]
  | cons a as ih =>
    intro z_jl h
    cases z_jl with
    | nil => simp [addDiskSource]
    | cons zj zjs =>
      have hcheck : zj.units = zi.units ∧ zi.units = Ri.units :=
        ⟨by rw [h zj (List.mem_cons_self _ _), hzi], by rw [hzi, hRi]⟩
      simp only [addDiskSource, potential_of_disk, if_pos hcheck,
        ih zjs (fun q hq => h q (List.mem_cons_of_mem _ hq)), List.zipWith_cons_cons]
      rfl

theorem foldl_addDiskSource_ok {u : PhysUnit} (sigma : Quantity ℝ)
    (z_jl : List (Quantity ℝ)) (hz : ∀ q ∈ z_jl, q.units = u) :
    ∀ srcs : List ((Quantity ℝ × Quantity ℝ) × Quantity ℝ),
      (∀ p ∈ srcs, p.1.1.units = u ∧ p.2.units = u) →
      ∀ acc : List (Quantity ℝ),
      srcs.foldlM (fun acc p => addDiskSource sigma acc z_jl p.1.1 p.1.2 p.2) acc =
        Except.ok (srcs.foldl
          (fun acc p => List.zipWith
            (fun phi zj => qadd phi (diskCore zj p.1.1 p.1.2 p.2 sigma)) acc z_jl) acc) := by
  intro srcs
  induction srcs with
  | nil => intro _ acc; rfl
  | cons s ss ih =>
    intro h acc
    obtain ⟨h1, h2⟩ := h s (List.mem_cons_self _ _)
    rw [List.foldlM_cons, addDiskSource_ok sigma s.1.1 s.1.2 s.2 h1 h2 acc z_jl hz]
    show ss.foldlM _ _ = _
    rw [List.foldl_cons]
    exact ih (fun p hp => h p (List.mem_cons_of_mem _ hp)) _

theorem get_lfp_of_disks_ok {u : PhysUnit}
    (z_j : List (Quantity ℝ)) (sigma : Quantity ℝ) (hzj : ∀ q ∈ z_j, q.units = u)
    (zl Cl Rl : List (Quantity ℝ)) (hz : ∀ q ∈ zl, q.units = u)
    (hR : ∀ q ∈ Rl, q.units = u) :
    get_lfp_of_disks z_j zl Cl Rl sigma false =
      Except.ok (((zl.zip Cl).zip Rl).foldl
        (fun acc p => List.zipWith
          (fun phi zj => qadd phi (diskCore zj p.1.1 p.1.2 p.2 sigma)) acc z_j)
        (z_j.map fun _ => ⟨0, volt⟩), Cl) := by
  have hsrc : ∀ p ∈ (zl.zip Cl).zip Rl, p.1.1.units = u ∧ p.2.units = u := by
    intro p hp
    obtain ⟨⟨x, y⟩, r⟩ := p
    obtain ⟨hxy, hr⟩ := List.of_mem_zip hp
    exact ⟨hz x (List.of_mem_zip hxy).1, hR r hr⟩
  simp only [get_lfp_of_disks]
  rw [foldl_addDiskSource_ok sigma z_j hzj ((zl.zip Cl).zip Rl) hsrc]
  rfl

theorem addCylinderSource_ok {u : PhysUnit} (sigma zi ci Ri hi : Quantity ℝ)
    (hzi : zi.units = u) (hRi : Ri.units = u) (hhi : hi.units = u) :
    ∀ acc z_jl : List (Quantity ℝ), (∀ q ∈ z_jl, q.units = u) →
      addCylinderSource sigma acc z_jl zi ci Ri hi =
        Except.ok (List.zipWith
          (fun phi zj => qadd phi (cylinderCore zj zi ci Ri hi sigma)) acc z_jl) := by
  intro acc
  induction acc with
  | nil => intro z_jl _; cases z_jl <;> simp [addCylinderSource]
  | cons a as ih =>
    intro z_jl h
    cases z_jl with
    | nil => simp [addCylinderSource]
    | cons zj zjs =>
      have hcheck : zj.units = zi.units ∧ zi.units = Ri.units ∧ Ri.units = hi.units :=
        ⟨by rw [h zj (List.mem_cons_self _ _), hzi], by rw [hzi, hRi],
          by rw [hRi, hhi]⟩
      simp only [addCylinderSource, potential_of_cylinder_eq, if_pos hcheck,
        ih zjs (fun q hq => h q (List.mem_cons_of_mem _ hq)), List.zipWith_cons_cons]
      rfl

theorem foldl_addCylinderSource_ok {u : PhysUnit} (sigma : Quantity ℝ)
    (z_jl : List (Quantity ℝ)) (hz : ∀ q ∈ z_jl, q.units = u) :
    ∀ srcs : List ((Quantity ℝ × Quantity ℝ) × (Quantity ℝ × Quantity ℝ)),
      (∀ p ∈ srcs, p.1.1.units = u ∧ p.2.1.units = u ∧ p.2.2.units = u) →
      ∀ acc : List (Quantity ℝ),
      srcs.foldlM
          (fun acc p => addCylinderSource sigma acc z_jl p.1.1 p.1.2 p.2.1 p.2.2) acc =
        Except.ok (srcs.foldl
          (fun acc p => List.zipWith
            (fun phi zj => qadd phi (cylinderCore zj p.1.1 p.1.2 p.2.1 p.2.2 sigma))
            acc z_jl) acc) := by
  intro srcs
  induction srcs with
  | nil => intro _ acc; rfl
  | cons s ss ih =>
    intro h acc
    obtain ⟨h1, h2, h3⟩ := h s (List.mem_cons_self _ _)
    rw [List.foldlM_cons,
      addCylinderSource_ok sigma s.1.1 s.1.2 s.2.1 s.2.2 h1 h2 h3 acc z_jl hz]
    show ss.foldlM _ _ = _
    rw [List.foldl_cons]
    exact ih (fun p hp => h p (List.mem_cons_of_mem _ hp)) _

theorem get_lfp_of_cylinders_ok {u : PhysUnit}
    (z_j : List (Quantity ℝ)) (sigma : Quantity ℝ) (hzj : ∀ q ∈ z_j, q.units = u)
    (zl Cl Rl hl : List (Quantity ℝ)) (hz : ∀ q ∈ zl, q.units = u)
    (hR : ∀ q ∈ Rl, q.units = u) (hh : ∀ q ∈ hl, q.units = u) :
    get_lfp_of_cylinders z_j zl Cl Rl hl sigma false =
      Except.ok (((zl.zip Cl).zip (Rl.zip hl)).foldl
        (fun acc p => List.zipWith
          (fun phi zj => qadd phi (cylinderCore zj p.1.1 p.1.2 p.2.1 p.2.2 sigma))
          acc z_j)
        (z_j.map fun _ => ⟨0, volt⟩), Cl) := by
  have hsrc : ∀ p ∈ (zl.zip Cl).zip (Rl.zip hl),
      p.1.1.units = u ∧ p.2.1.units = u ∧ p.2.2.units = u := by
    intro p hp
    obtain ⟨⟨x, y⟩, r, hgt⟩ := p
    obtain ⟨hxy, hrh⟩ := List.of_mem_zip hp
    exact ⟨hz x (List.of_mem_zip hxy).1, hR r (List.of_mem_zip hrh).1,
      hh hgt (List.of_mem_zip hrh).2⟩
  simp only [get_lfp_of_cylinders]
  rw [foldl_addCylinderSource_ok sigma z_j hzj ((zl.zip Cl).zip (Rl.zip hl)) hsrc]
  rfl

end DiskCylinderLemmas

section ApproxInverseCertificate

theorem listRangeMapSum {M : Type} [AddCommMonoid M] (f : ℕ → M) (n : ℕ) :
    ((List.range n).map f).sum = ∑ k ∈ Finset.range n, f k := by
  induction n with
  | zero => simp
  | succ n ih =>
    rw [List.range_succ, List.map_append, List.sum_append, Finset.sum_range_succ, ih]
    simp

theorem getD_range_map {β : Type} (f : ℕ → β) (n j : ℕ) (hj : j < n) (d : β) :
    ((List.range n).map f).getD j d = f j := by
  rw [List.getD_eq_getElem?_getD, List.getElem?_map, List.getElem?_range hj]
  rfl

theorem getD_map_physVal (l : List (Quantity ℝ)) (j : ℕ) (hj : j < l.length)
    (d : Quantity ℝ) :
    (l.map physVal).getD j 0 = physVal (l.getD j d) := by
  rw [List.getD_eq_getElem?_getD, List.getElem?_map, List.getElem?_eq_getElem hj,
    List.getD_eq_getElem?_getD, List.getElem?_eq_getElem hj]
  rfl

/-- A square real matrix with a certified approximate left inverse
(residual row-sum norm at most `q < 1`) has injective `mulVec`. -/
theorem mulVec_injective_of_certificate {n : ℕ} (A B : Matrix (Fin n) (Fin n) ℝ)
    (q : ℝ) (hq : q < 1)
    (hrow : ∀ j, ∑ i, |(B * A - 1) j i| ≤ q) :
    Function.Injective A.mulVec := by
  have hker : ∀ z : Fin n → ℝ, A.mulVec z = 0 → z = 0 := by
    intro z hz
    rcases Nat.eq_zero_or_pos n with hn | hn
    · funext i
      exact absurd i.isLt (by omega)
    · have : Nonempty (Fin n) := ⟨⟨0, hn⟩⟩
      have hBAz : (B * A).mulVec z = 0 := by
        rw [← Matrix.mulVec_mulVec, hz, Matrix.mulVec_zero]
      have hEz : ∀ j, z j = -((B * A - 1).mulVec z j) := by
        intro j
        have h1 : (B * A - 1).mulVec z j = (B * A).mulVec z j - z j := by
          rw [Matrix.sub_mulVec, Matrix.one_mulVec]
          rfl
        rw [h1, hBAz]
        simp
      obtain ⟨j0, _, hmax⟩ :=
        Finset.exists_max_image Finset.univ (fun i => |z i|) Finset.univ_nonempty
      have hstep : |z j0| ≤ q * |z j0| := by
        calc |z j0| = |(B * A - 1).mulVec z j0| := by rw [hEz j0, abs_neg]
        _ = |∑ i, (B * A - 1) j0 i * z i| := by
              rw [Matrix.mulVec, Matrix.dotProduct]
        _ ≤ ∑ i, |(B * A - 1) j0 i * z i| := Finset.abs_sum_le_sum_abs _ _
        _ = ∑ i, |(B * A - 1) j0 i| * |z i| := by simp [abs_mul]
        _ ≤ ∑ i, |(B * A - 1) j0 i| * |z j0| := by
              refine Finset.sum_le_sum fun i _ => ?_
              exact mul_le_mul_of_nonneg_left (hmax i (Finset.mem_univ i)) (abs_nonneg _)
        _ = (∑ i, |(B * A - 1) j0 i|) * |z j0| := by rw [Finset.sum_mul]
        _ ≤ q * |z j0| := mul_le_mul_of_nonneg_right (hrow j0) (abs_nonneg _)
      have hM0 : |z j0| = 0 := by nlinarith [abs_nonneg (z j0)]
      funext i
      have hle : |z i| ≤ 0 := hM0 ▸ hmax i (Finset.mem_univ i)
      have := abs_nonneg (z i)
      have : |z i| = 0 := le_antisymm hle this
      simpa [abs_eq_zero] using this
  intro x y hxy
  have hsub : A.mulVec (x - y) = 0 := by
    rw [Matrix.mulVec_sub, hxy, sub_self]
  have := hker (x - y) hsub
  ext i
  have hi := congrFun this i
  simp only [Pi.sub_apply, Pi.zero_apply, sub_eq_zero] at hi
  exact hi

/-- The square roots of `m^2 + 100`, the irrational part of the
scenario's disk forward matrix. -/
noncomputable def sM (m : ℕ) : ℝ := Real.sqrt ((m : ℝ) ^ 2 + 100)

/-- The scenario disk forward matrix in closed form. -/
noncomputable def scenarioDiskK : Matrix (Fin 21) (Fin 21) ℝ :=
  Matrix.of fun j i =>
    (1 / 6000 : ℝ) * (sM (Nat.dist j.1 i.1) - (Nat.dist j.1 i.1 : ℝ))

/-- The certified approximate inverse, cast to the reals. -/
noncomputable def deltaBreal : Matrix (Fin 21) (Fin 21) ℝ :=
  Matrix.of fun j k => ((qB j.1 k.1 : ℚ) : ℝ)

theorem sqrt_bracket (a r e : ℝ) (hr : 0 ≤ r) (he : 0 ≤ e) (h1 : r ^ 2 ≤ a)
    (h2 : a ≤ (r + e) ^ 2) : |Real.sqrt a - r| ≤ e := by
  have ha : 0 ≤ a := le_trans (by positivity) h1
  have hs1 : r ≤ Real.sqrt a := (Real.le_sqrt hr ha).mpr h1
  have hs2 : Real.sqrt a ≤ r + e := by
    calc Real.sqrt a ≤ Real.sqrt ((r + e) ^ 2) := Real.sqrt_le_sqrt h2
    _ = r + e := Real.sqrt_sq (by linarith)
  rw [abs_le]
  exact ⟨by linarith, by linarith⟩

theorem sM_approx (m : ℕ) (hm : m < 21) :
    |sM m - ((qRt m : ℚ) : ℝ)| ≤ ((epsQ : ℚ) : ℝ) := by
  obtain ⟨h0, h1, h2⟩ := deltaRtab_bounds m (List.mem_range.mpr hm)
  apply sqrt_bracket
  · exact_mod_cast h0
  · exact_mod_cast (by norm_num [epsQ] : (0 : ℚ) ≤ epsQ)
  · exact_mod_cast h1
  · exact_mod_cast h2

theorem dist_lt_21 (k i : Fin 21) : Nat.dist k.1 i.1 < 21 := by
  have hk := k.isLt
  have hi := i.isLt
  simp only [Nat.dist]
  omega

theorem scenarioDiskK_approx (k i : Fin 21) :
    |scenarioDiskK k i - ((qKt k.1 i.1 : ℚ) : ℝ)| ≤
      (1 / 6000 : ℝ) * ((epsQ : ℚ) : ℝ) := by
  have hcast : ((qKt k.1 i.1 : ℚ) : ℝ) =
      (1 / 6000 : ℝ) * (((qRt (Nat.dist k.1 i.1) : ℚ) : ℝ) - (Nat.dist k.1 i.1 : ℝ)) := by
    simp only [qKt, gammaQ]
    push_cast
    ring
  have hK : scenarioDiskK k i =
      (1 / 6000 : ℝ) * (sM (Nat.dist k.1 i.1) - (Nat.dist k.1 i.1 : ℝ)) := rfl
  rw [hK, hcast, ← mul_sub, sub_sub_sub_cancel_right, abs_mul,
    abs_of_nonneg (by norm_num : (0 : ℝ) ≤ 1 / 6000)]
  exact mul_le_mul_of_nonneg_left (sM_approx _ (dist_lt_21 k i)) (by norm_num)

end ApproxInverseCertificate


section ScenarioMatrixNonsingular

theorem qErEntry_cast (j i : Fin 21) :
    ((qErEntry j.1 i.1 : ℚ) : ℝ) =
      (∑ k : Fin 21, ((qB j.1 k.1 : ℚ) : ℝ) * ((qKt k.1 i.1 : ℚ) : ℝ)) -
        (if j = i then (1 : ℝ) else 0) := by
  rw [qErEntry, Rat.cast_sub]
  congr 1
  · rw [listRangeMapSum, Rat.cast_sum,
      ← Fin.sum_univ_eq_sum_range (fun k => ((qB j.1 k * qKt k i.1 : ℚ) : ℝ)) 21]
    exact Finset.sum_congr rfl fun k _ => Rat.cast_mul _ _
  · by_cases h : j = i
    · rw [if_pos (by rw [h]), if_pos h, Rat.cast_one]
    · rw [if_neg (fun hv => h (Fin.val_eq_val j i |>.mp hv)), if_neg h, Rat.cast_zero]

theorem scenario_residual_entry (j i : Fin 21) :
    |(deltaBreal * scenarioDiskK - 1) j i| ≤
      |((qErEntry j.1 i.1 : ℚ) : ℝ)| +
        (∑ k : Fin 21, |((qB j.1 k.1 : ℚ) : ℝ)|) *
          ((1 / 6000 : ℝ) * ((epsQ : ℚ) : ℝ)) := by
  have hsplit : (deltaBreal * scenarioDiskK - 1) j i =
      ((qErEntry j.1 i.1 : ℚ) : ℝ) +
        ∑ k : Fin 21, ((qB j.1 k.1 : ℚ) : ℝ) *
          (scenarioDiskK k i - ((qKt k.1 i.1 : ℚ) : ℝ)) := by
    rw [Matrix.sub_apply, Matrix.mul_apply, Matrix.one_apply, qErEntry_cast j i]
    have hB : ∀ k : Fin 21, deltaBreal j k = ((qB j.1 k.1 : ℚ) : ℝ) := fun _ => rfl
    rw [Finset.sum_congr rfl fun k _ => by rw [hB k],
      show (∑ k : Fin 21, ((qB j.1 k.1 : ℚ) : ℝ) *
          (scenarioDiskK k i - ((qKt k.1 i.1 : ℚ) : ℝ))) =
        (∑ k : Fin 21, ((qB j.1 k.1 : ℚ) : ℝ) * scenarioDiskK k i) -
          (∑ k : Fin 21, ((qB j.1 k.1 : ℚ) : ℝ) * ((qKt k.1 i.1 : ℚ) : ℝ)) from by
        rw [← Finset.sum_sub_distrib]
        exact Finset.sum_congr rfl fun k _ => mul_sub _ _ _]
    ring
  rw [hsplit]
  refine le_trans (abs_add _ _) (add_le_add_left ?_ _)
  refine le_trans (Finset.abs_sum_le_sum_abs _ _) ?_
  calc ∑ k : Fin 21, |((qB j.1 k.1 : ℚ) : ℝ) *
        (scenarioDiskK k i - ((qKt k.1 i.1 : ℚ) : ℝ))|
      = ∑ k : Fin 21, |((qB j.1 k.1 : ℚ) : ℝ)| *
          |scenarioDiskK k i - ((qKt k.1 i.1 : ℚ) : ℝ)| := by
        exact Finset.sum_congr rfl fun k _ => abs_mul _ _
    _ ≤ ∑ k : Fin 21, |((qB j.1 k.1 : ℚ) : ℝ)| *
          ((1 / 6000 : ℝ) * ((epsQ : ℚ) : ℝ)) := by
        refine Finset.sum_le_sum fun k _ => ?_
        exact mul_le_mul_of_nonneg_left (scenarioDiskK_approx k i) (abs_nonneg _)
    _ = (∑ k : Fin 21, |((qB j.1 k.1 : ℚ) : ℝ)|) *
          ((1 / 6000 : ℝ) * ((epsQ : ℚ) : ℝ)) := by rw [Finset.sum_mul]

theorem scenario_residual_row (j : Fin 21) :
    ∑ i : Fin 21, |(deltaBreal * scenarioDiskK - 1) j i| ≤ (1 / 1000000 : ℝ) := by
  have h1 : ∑ i : Fin 21, |(deltaBreal * scenarioDiskK - 1) j i| ≤
      ∑ i : Fin 21, (|((qErEntry j.1 i.1 : ℚ) : ℝ)| +
        (∑ k : Fin 21, |((qB j.1 k.1 : ℚ) : ℝ)|) *
          ((1 / 6000 : ℝ) * ((epsQ : ℚ) : ℝ))) :=
    Finset.sum_le_sum fun i _ => scenario_residual_entry j i
  refine le_trans h1 ?_
  have hS1 : ((((List.range 21).map (fun i => |qErEntry j.1 i|)).sum : ℚ) : ℝ) =
      ∑ i : Fin 21, |((qErEntry j.1 i.1 : ℚ) : ℝ)| := by
    rw [listRangeMapSum, Rat.cast_sum,
      ← Fin.sum_univ_eq_sum_range (fun i => ((|qErEntry j.1 i| : ℚ) : ℝ)) 21]
    exact Finset.sum_congr rfl fun i _ => Rat.cast_abs _
  have hS2 : ((((List.range 21).map (fun k => |qB j.1 k|)).sum : ℚ) : ℝ) =
      ∑ k : Fin 21, |((qB j.1 k.1 : ℚ) : ℝ)| := by
    rw [listRangeMapSum, Rat.cast_sum,
      ← Fin.sum_univ_eq_sum_range (fun k => ((|qB j.1 k| : ℚ) : ℝ)) 21]
    exact Finset.sum_congr rfl fun k _ => Rat.cast_abs _
  have hg : ((gammaQ * epsQ : ℚ) : ℝ) = (1 / 6000 : ℝ) * ((epsQ : ℚ) : ℝ) := by
    rw [Rat.cast_mul]
    norm_num [gammaQ]
  have hcast : ((qRowBound j.1 : ℚ) : ℝ) =
      (∑ i : Fin 21, |((qErEntry j.1 i.1 : ℚ) : ℝ)|) +
        21 * ((∑ k : Fin 21, |((qB j.1 k.1 : ℚ) : ℝ)|) *
          ((1 / 6000 : ℝ) * ((epsQ : ℚ) : ℝ))) := by
    rw [qRowBound, Rat.cast_add, Rat.cast_mul, Rat.cast_mul, hS1, hS2, hg]
    norm_num
  have hq : ((qRowBound j.1 : ℚ) : ℝ) ≤ ((1 / 1000000 : ℚ) : ℝ) :=
    Rat.cast_le.mpr (deltaRowBound_le j.1 (List.mem_range.mpr j.isLt))
  rw [Finset.sum_add_distrib, Finset.sum_const, Finset.card_univ, Fintype.card_fin,
    nsmul_eq_mul]
  calc (∑ i : Fin 21, |((qErEntry j.1 i.1 : ℚ) : ℝ)|) +
        ((21 : ℕ) : ℝ) * ((∑ k : Fin 21, |((qB j.1 k.1 : ℚ) : ℝ)|) *
          ((1 / 6000 : ℝ) * ((epsQ : ℚ) : ℝ)))
      = ((qRowBound j.1 : ℚ) : ℝ) := by rw [hcast]; norm_num
    _ ≤ ((1 / 1000000 : ℚ) : ℝ) := hq
    _ = (1 / 1000000 : ℝ) := by norm_num

theorem scenarioDiskK_isUnit : IsUnit scenarioDiskK.det :=
  (Matrix.isUnit_iff_isUnit_det _).mp
    (Matrix.mulVec_injective_iff_isUnit.mp
      (mulVec_injective_of_certificate scenarioDiskK deltaBreal (1 / 1000000)
        (by norm_num) scenario_residual_row))

end ScenarioMatrixNonsingular

section ScenarioDiskRoundTrip

theorem physVal_mk_scale_one {α : Type} [LinearOrderedField α] (m : α) (u : PhysUnit)
    (hu : u.scale = 1) : physVal (⟨m, u⟩ : Quantity α) = m := by
  show m * ((u.scale : ℚ) : α) = m
  rw [hu]
  norm_num

/-- The SI base value computed by the disk kernel under its unit check
(the derivation behind C4, factored out for reuse by the scenario
round trip). -/
theorem physVal_diskCore (z_j z_i C_i R_i sigma : Quantity ℝ)
    (hu : z_j.units = z_i.units) (hur : z_i.units = R_i.units)
    (hp : 0 < z_j.units.scale) :
    physVal (diskCore z_j z_i C_i R_i sigma) =
      physVal C_i / (2 * physVal sigma) *
        (Real.sqrt ((physVal z_j - physVal z_i) ^ 2 + physVal R_i ^ 2) -
          |physVal z_j - physVal z_i|) := by
  have hsi : z_i.units = z_j.units := hu.symm
  have hsR : R_i.units = z_j.units := (hu.trans hur).symm
  have hs0 : (0 : ℝ) < ((z_j.units.scale : ℚ) : ℝ) := by exact_mod_cast hp
  have hTu : (⟨Real.sqrt ((z_j.mag - z_i.mag) ^ 2 + R_i.mag ^ 2), z_j.units⟩ :
      Quantity ℝ).units = (qabs (qsub z_j z_i)).units := by
    rw [qabs_units, qsub_units]
  unfold diskCore
  rw [physVal_qmul, physVal_qdiv, physVal_qsmul, physVal_qsimplified,
    physVal_qsub_of_units _ _ hTu,
    physVal_qabs _ (by rw [qsub_units]; exact hp.le), physVal_qsub_of_units _ _ hu]
  congr 1
  congr 1
  show Real.sqrt ((z_j.mag - z_i.mag) ^ 2 + R_i.mag ^ 2) * ((z_j.units.scale : ℚ) : ℝ) = _
  have hvj : physVal z_j = z_j.mag * ((z_j.units.scale : ℚ) : ℝ) := rfl
  have hvi : physVal z_i = z_i.mag * ((z_j.units.scale : ℚ) : ℝ) := by
    rw [physVal, hsi]
  have hvR : physVal R_i = R_i.mag * ((z_j.units.scale : ℚ) : ℝ) := by
    rw [physVal, hsR]
  rw [hvj, hvi, hvR,
    show (z_j.mag * ((z_j.units.scale : ℚ) : ℝ) - z_i.mag * ((z_j.units.scale : ℚ) : ℝ)) ^ 2 +
        (R_i.mag * ((z_j.units.scale : ℚ) : ℝ)) ^ 2 =
      ((z_j.mag - z_i.mag) ^ 2 + R_i.mag ^ 2) * ((z_j.units.scale : ℚ) : ℝ) ^ 2 by ring,
    Real.sqrt_mul (by positivity), Real.sqrt_sq hs0.le]

theorem z21R_length : z21R.length = 21 := by
  unfold z21R
  rw [List.length_map, List.length_range]

theorem C_trueR_length : C_trueR.length = 21 := by
  unfold C_trueR
  rw [List.length_map, List.length_range]

theorem z21R_getD (j : ℕ) (hj : j < 21) (d : Quantity ℝ) :
    z21R.getD j d = ⟨(j : ℝ) / 10000, metre⟩ := by
  unfold z21R
  exact getD_range_map _ 21 j hj d

theorem C_trueR_getD (k : ℕ) (hk : k < 21) (d : Quantity ℝ) :
    C_trueR.getD k d = ⟨cval k, ampPerM2⟩ := by
  unfold C_trueR
  exact getD_range_map _ 21 k hk d

theorem R21R_getD (k : ℕ) (hk : k < 21) (d : Quantity ℝ) :
    R21R.getD k d = ⟨1 / 1000, metre⟩ := by
  unfold R21R
  exact getD_range_map _ 21 k hk d

theorem z21R_units : ∀ q ∈ z21R, q.units = metre := by
  intro q hq
  simp only [z21R, List.mem_map] at hq
  obtain ⟨j, _, rfl⟩ := hq
  rfl

theorem C_trueR_units : ∀ q ∈ C_trueR, q.units = ampPerM2 := by
  intro q hq
  simp only [C_trueR, List.mem_map] at hq
  obtain ⟨j, _, rfl⟩ := hq
  rfl

theorem R21R_units : ∀ q ∈ R21R, q.units = metre := by
  intro q hq
  simp only [R21R, List.mem_map] at hq
  obtain ⟨j, _, rfl⟩ := hq
  rfl

/-- The scenario ground-truth density as a vector over `Fin 21`. -/
noncomputable def cvec21 : Fin 21 → ℝ := fun i => cval i.1

/-- At the scenario's geometry the disk kernel's SI base response is
exactly the certified matrix entry. -/
theorem diskKernelPhys_scenario (a b : ℕ) :
    diskKernelPhys ((a : ℝ) / 10000) ((b : ℝ) / 10000) (1 / 1000) (3 / 10) =
      (1 / 6000 : ℝ) * (sM (Nat.dist a b) - (Nat.dist a b : ℝ)) := by
  have habs : |(a : ℝ) / 10000 - (b : ℝ) / 10000| = (Nat.dist a b : ℝ) / 10000 := by
    rcases le_total a b with h | h
    · have hd : Nat.dist a b = b - a := by
        simp [Nat.dist, Nat.sub_eq_zero_of_le h]
      rw [hd, Nat.cast_sub h, abs_of_nonpos (by
        have : (a : ℝ) ≤ b := Nat.cast_le.mpr h
        linarith)]
      ring
    · have hd : Nat.dist a b = a - b := by
        simp [Nat.dist, Nat.sub_eq_zero_of_le h]
      rw [hd, Nat.cast_sub h, abs_of_nonneg (by
        have : (b : ℝ) ≤ a := Nat.cast_le.mpr h
        linarith)]
      ring
  have hsq : ((a : ℝ) / 10000 - (b : ℝ) / 10000) ^ 2 =
      ((Nat.dist a b : ℝ) / 10000) ^ 2 := by
    rw [← sq_abs, habs]
  have hsqrt : Real.sqrt (((a : ℝ) / 10000 - (b : ℝ) / 10000) ^ 2 + (1 / 1000) ^ 2) =
      sM (Nat.dist a b) / 10000 := by
    rw [hsq, show ((Nat.dist a b : ℝ) / 10000) ^ 2 + (1 / 1000 : ℝ) ^ 2 =
        ((Nat.dist a b : ℝ) ^ 2 + 100) * (1 / 10000) ^ 2 by ring,
      Real.sqrt_mul (by positivity), Real.sqrt_sq (by norm_num), sM]
    ring
  rw [diskKernelPhys, hsqrt, habs]
  ring

theorem z21R_physVal_getD (j : ℕ) (hj : j < 21) :
    (z21R.map physVal).getD j 0 = (j : ℝ) / 10000 := by
  rw [getD_map_physVal z21R j (by rw [z21R_length]; exact hj) ⟨0, metre⟩,
    z21R_getD j hj]
  exact physVal_mk_scale_one _ metre rfl

/-- The delta estimator's forward matrix assembled from the scenario
inputs is exactly the certified scenario matrix. -/
theorem scenario_deltaMatrix_eq :
    deltaMatrix (z21R.map physVal) (1 / 1000) (3 / 10) = scenarioDiskK := by
  funext j i
  have hj : j.1 < 21 := j.isLt
  have hi : i.1 < 21 := i.isLt
  show diskKernelPhys ((z21R.map physVal).getD j.1 0) ((z21R.map physVal).getD i.1 0)
      (1 / 1000) (3 / 10) =
    (1 / 6000 : ℝ) * (sM (Nat.dist j.1 i.1) - (Nat.dist j.1 i.1 : ℝ))
  rw [z21R_physVal_getD j.1 hj, z21R_physVal_getD i.1 hi, diskKernelPhys_scenario]

/-- One summand of the scenario disk trace in SI base terms. -/
theorem scenario_disk_term (j k : ℕ) (hj : j < 21) (hk : k < 21) :
    physVal (diskCore (⟨(j : ℝ) / 10000, metre⟩ : Quantity ℝ)
        ⟨(k : ℝ) / 10000, metre⟩ ⟨cval k, ampPerM2⟩ ⟨1 / 1000, metre⟩ sigma0R) =
      scenarioDiskK ⟨j, hj⟩ ⟨k, hk⟩ * cval k := by
  rw [physVal_diskCore ⟨(j : ℝ) / 10000, metre⟩ ⟨(k : ℝ) / 10000, metre⟩
      ⟨cval k, ampPerM2⟩ ⟨1 / 1000, metre⟩ sigma0R rfl rfl (by norm_num [metre]),
    show scenarioDiskK ⟨j, hj⟩ ⟨k, hk⟩ =
        diskKernelPhys ((j : ℝ) / 10000) ((k : ℝ) / 10000) (1 / 1000) (3 / 10) from
      (diskKernelPhys_scenario j k).symm,
    physVal_mk_scale_one ((j : ℝ) / 10000) metre rfl,
    physVal_mk_scale_one ((k : ℝ) / 10000) metre rfl,
    physVal_mk_scale_one (cval k) ampPerM2 rfl,
    physVal_mk_scale_one (1 / 1000) metre rfl,
    show physVal sigma0R = 3 / 10 from physVal_mk_scale_one (3 / 10) siemensPerMetre rfl,
    diskKernelPhys]
  ring

/-- The scenario source triples as a single range-indexed list. -/
theorem scenario_srcs_eq :
    (z21R.zip C_trueR).zip R21R =
      (List.range 21).map (fun (a : ℕ) =>
        (((⟨(a : ℝ) / 10000, metre⟩ : Quantity ℝ), (⟨cval a, ampPerM2⟩ : Quantity ℝ)),
          (⟨1 / 1000, metre⟩ : Quantity ℝ))) := by
  show (((List.range 21).map _).zip ((List.range 21).map _)).zip
      ((List.range 21).map _) = _
  rw [List.zip_map', List.zip_map']

theorem scenario_disk_fold_length :
    (((z21R.zip C_trueR).zip R21R).foldl
      (fun acc p => List.zipWith
        (fun phi zj => qadd phi (diskCore zj p.1.1 p.1.2 p.2 sigma0R)) acc z21R)
      (z21R.map fun _ => ⟨0, volt⟩)).length = 21 := by
  have hl := foldl_zipWithG_length
    (fun zj (p : (Quantity ℝ × Quantity ℝ) × Quantity ℝ) =>
      diskCore zj p.1.1 p.1.2 p.2 sigma0R) z21R
    ((z21R.zip C_trueR).zip R21R) (z21R.map fun _ => ⟨0, volt⟩)
    (List.length_map _ _)
  rw [z21R_length] at hl
  exact hl

theorem scenario_disk_fold_getD (j : ℕ) (hj : j < 21) :
    physVal ((((z21R.zip C_trueR).zip R21R).foldl
        (fun acc p => List.zipWith
          (fun phi zj => qadd phi (diskCore zj p.1.1 p.1.2 p.2 sigma0R)) acc z21R)
        (z21R.map fun _ => ⟨0, volt⟩)).getD j ⟨0, volt⟩) =
      (∑ k : Fin 21, scenarioDiskK ⟨j, hj⟩ k * cval k.1) ∧
    ((((z21R.zip C_trueR).zip R21R).foldl
        (fun acc p => List.zipWith
          (fun phi zj => qadd phi (diskCore zj p.1.1 p.1.2 p.2 sigma0R)) acc z21R)
        (z21R.map fun _ => ⟨0, volt⟩)).getD j ⟨0, volt⟩).units = volt := by
  have hjz : j < z21R.length := by rw [z21R_length]; exact hj
  have hdims : ∀ p ∈ (z21R.zip C_trueR).zip R21R,
      (diskCore (z21R.getD j ⟨0, volt⟩) p.1.1 p.1.2 p.2 sigma0R).units.dims =
        volt.dims := by
    intro p hp
    obtain ⟨⟨x, c⟩, r⟩ := p
    obtain ⟨hxc, _⟩ := List.of_mem_zip hp
    have hc : c.units = ampPerM2 := C_trueR_units c (List.of_mem_zip hxc).2
    have hzju : (z21R.getD j ⟨0, volt⟩).units = metre :=
      z21R_units _ (getD_mem_of_lt z21R j hjz ⟨0, volt⟩)
    rw [diskCore_units_dims, hc, hzju]
    with_unfolding_all decide
  have hstep := foldl_stepG_getD
    (fun zj (p : (Quantity ℝ × Quantity ℝ) × Quantity ℝ) =>
      diskCore zj p.1.1 p.1.2 p.2 sigma0R) z21R j hjz ⟨0, volt⟩
    ((z21R.zip C_trueR).zip R21R) (z21R.map fun _ => ⟨0, volt⟩)
    (List.length_map _ _)
  rw [hstep, getD_map_const _ z21R j hjz]
  obtain ⟨hval, hunits⟩ := physVal_foldl_qaddG
    (fun p : (Quantity ℝ × Quantity ℝ) × Quantity ℝ =>
      diskCore (z21R.getD j ⟨0, volt⟩) p.1.1 p.1.2 p.2 sigma0R)
    ((z21R.zip C_trueR).zip R21R) hdims ⟨0, volt⟩ rfl
  refine ⟨?_, hunits⟩
  rw [hval, scenario_srcs_eq, List.map_map, listRangeMapSum,
    ← Fin.sum_univ_eq_sum_range,
    show physVal (⟨0, volt⟩ : Quantity ℝ) = 0 from by
      show (0 : ℝ) * ((volt.scale : ℚ) : ℝ) = 0
      ring,
    zero_add]
  refine Finset.sum_congr rfl fun k _ => ?_
  show physVal (diskCore (z21R.getD j ⟨0, volt⟩) ⟨(k.1 : ℝ) / 10000, metre⟩
      ⟨cval k.1, ampPerM2⟩ ⟨1 / 1000, metre⟩ sigma0R) = _
  rw [z21R_getD j hj, scenario_disk_term j k.1 hj k.isLt]

/-- Synthesizing the scenario trace with the disk kernel succeeds and
produces, at each electrode, the SI base value of the certified forward
matrix applied to the ground-truth density vector. -/
theorem scenario_disk_trace :
    ∃ t : List (Quantity ℝ),
      get_lfp_of_disks z21R z21R C_trueR R21R sigma0R false = Except.ok (t, C_trueR) ∧
      t.length = 21 ∧ (∀ q ∈ t, q.units = volt) ∧
      ∀ j : Fin 21, physVal (t.getD j.1 ⟨0, volt⟩) = scenarioDiskK.mulVec cvec21 j := by
  refine ⟨_, @get_lfp_of_disks_ok metre z21R sigma0R z21R_units z21R C_trueR R21R
      z21R_units R21R_units, scenario_disk_fold_length, ?_, ?_⟩
  · intro q hq
    obtain ⟨n, hn, rfl⟩ := List.mem_iff_getElem.mp hq
    have hn21 : n < 21 := by rw [scenario_disk_fold_length] at hn; exact hn
    have hu := (scenario_disk_fold_getD n hn21).2
    rw [List.getD_eq_getElem?_getD, List.getElem?_eq_getElem hn] at hu
    simpa using hu
  · intro j
    have h := (scenario_disk_fold_getD j.1 j.isLt).1
    have hje : (⟨j.1, j.isLt⟩ : Fin 21) = j := rfl
    rw [hje] at h
    rw [h]
    show (∑ k : Fin 21, scenarioDiskK j k * cval k.1) =
      ∑ k : Fin 21, scenarioDiskK j k * cvec21 k
    exact Finset.sum_congr rfl fun k _ => rfl

/-- Feeding any trace with the scenario's SI base values to the
modelled delta estimator at the scenario parameters recovers the
ground-truth density list exactly, unit included. -/
theorem deltaiCSD_scenario (t : List (Quantity ℝ))
    (hlen : t.length = 21) (hunits : ∀ q ∈ t, q.units = volt)
    (hphys : ∀ j : Fin 21, physVal (t.getD j.1 ⟨0, volt⟩) =
      scenarioDiskK.mulVec cvec21 j) :
    DeltaiCSD t z21R diam0R sigma0R sigma0R = C_trueR := by
  have hhead : (t.headD ⟨0, volt⟩).units = volt := by
    cases t with
    | nil => simp at hlen
    | cons a l => exact hunits a (List.mem_cons_self _ _)
  have hzhead : (z21R.headD ⟨0, metre⟩).units = metre := rfl
  have hdu : (⟨1, ((t.headD ⟨0, volt⟩).units.dims + sigma0R.units.dims) -
      (z21R.headD ⟨0, metre⟩).units.dims⟩ : PhysUnit) = ampPerM2 := by
    rw [hhead, hzhead]
    with_unfolding_all decide
  have hR : physVal diam0R / 2 = (1 / 1000 : ℝ) := by
    rw [show physVal diam0R = 1 / 500 from physVal_mk_scale_one (1 / 500) metre rfl]
    norm_num
  have hs : physVal sigma0R = (3 / 10 : ℝ) :=
    physVal_mk_scale_one (3 / 10) siemensPerMetre rfl
  have hphi : (fun i : Fin (z21R.map physVal).length =>
      (t.map physVal).getD i.1 0) = scenarioDiskK.mulVec cvec21 := by
    funext i
    rw [getD_map_physVal t i.1 (by rw [hlen]; exact i.isLt) ⟨0, volt⟩]
    exact hphys ⟨i.1, i.isLt⟩
  unfold DeltaiCSD deltaSol
  rw [hdu, hR, hs, hphi, scenario_deltaMatrix_eq,
    show scenarioDiskK⁻¹.mulVec (scenarioDiskK.mulVec cvec21) = cvec21 from by
      rw [Matrix.mulVec_mulVec, Matrix.nonsing_inv_mul _ scenarioDiskK_isUnit,
        Matrix.one_mulVec],
    List.map_map]
  refine List.ext_getElem ?_ ?_
  · rw [List.length_map, List.length_finRange, List.length_map, z21R_length,
      C_trueR_length]
  · intro n h1 h2
    simp only [List.getElem_map, Function.comp_apply, C_trueR, List.getElem_range,
      List.getElem_finRange]
    rfl

end ScenarioDiskRoundTrip

/-- C1: in the validation scenario (21 electrodes at `j*1E-4 m`, ground
truth zero except `[-0.5, 1, -0.5]` in `A/m²` at indices 7, 9 and 11,
conductivity `0.3 S/m`), both matching synthesize-then-recover round
trips return the 21-length ground-truth vector exactly (hence to at
least 6 decimal digits of absolute agreement), every entry carrying
the ground-truth density unit `A/m²`: the plane-kernel trace fed to the
modelled standard estimator, and the disk-kernel trace (source radii
`1E-3 m`, diameter `2E-3 m`) fed to the modelled delta estimator. -/
theorem csd_roundtrip_exact :
    (∃ phi : List (Quantity ℚ),
      (get_lfp_of_planes z_j21 z_j21 C_true sigma0 false).map Prod.fst =
        Except.ok phi ∧
      StandardCSD phi z_j21 sigma0 = C_true ∧
      (StandardCSD phi z_j21 sigma0).length = 21 ∧
      ∀ q ∈ StandardCSD phi z_j21 sigma0, q.units = ampPerM2) ∧
    ∃ t : List (Quantity ℝ),
      get_lfp_of_disks z21R z21R C_trueR R21R sigma0R false =
        Except.ok (t, C_trueR) ∧
      DeltaiCSD t z21R diam0R sigma0R sigma0R = C_trueR ∧
      (DeltaiCSD t z21R diam0R sigma0R sigma0R).length = 21 ∧
      ∀ q ∈ DeltaiCSD t z21R diam0R sigma0R sigma0R, q.units = ampPerM2 := by
  refine ⟨standardCSD_roundtrip_aux, ?_⟩
  obtain ⟨t, h1, h2, h3, h4⟩ := scenario_disk_trace
  have hrec := deltaiCSD_scenario t h2 h3 h4
  refine ⟨t, h1, hrec, ?_, ?_⟩
  · rw [hrec, C_trueR_length]
  · rw [hrec]
    exact C_trueR_units

section QuadDiscard

/-- A quadrature black box returning the exact value while reporting an
achieved error estimate of 1, as when the requested tolerance cannot be
met within the routine's iteration budget. -/
noncomputable def roughQuad (f : ℝ → ℝ) (a b : ℝ) : ℝ × ℝ :=
  (∫ z in a..b, f z, 1)

/-- C9 counterexample: two quadrature routines that return the same
approximate value but different achieved error estimates (0 versus 1)
are indistinguishable through the cylinder kernel: the kernel unpacks
the pair, forwards only the scaled value, and discards the achieved
error estimate, so its caller never receives it and cannot judge the
achieved precision. -/
theorem cylinder_kernel_discards_abserr :
    (∀ (f : ℝ → ℝ) (a b : ℝ), (exactQuad f a b).2 ≠ (roughQuad f a b).2) ∧
    potential_of_cylinder_quad exactQuad (⟨1, metre⟩ : Quantity ℝ) ⟨0, metre⟩
        ⟨1, ampPerM3⟩ ⟨1, metre⟩ ⟨1, metre⟩ ⟨3 / 10, siemensPerMetre⟩ =
      potential_of_cylinder_quad roughQuad (⟨1, metre⟩ : Quantity ℝ) ⟨0, metre⟩
        ⟨1, ampPerM3⟩ ⟨1, metre⟩ ⟨1, metre⟩ ⟨3 / 10, siemensPerMetre⟩ := by
  constructor
  · intro f a b
    show (0 : ℝ) ≠ 1
    norm_num
  · rfl

/-- C9 amended: the quadrature black box returns the approximate value
together with the achieved error estimate rather than failing, and
under the kernel's unit check the kernel always succeeds; but it builds
its result from the value component alone (scaled by `C_i`, unit
reattached), so any two routines agreeing on the value yield identical
kernel results even when their achieved error estimates differ, and
instantiating the box with exact integration recovers the source
kernel. -/
theorem cylinder_quad_returns_value_only
    (quad quad2 : (ℝ → ℝ) → ℝ → ℝ → ℝ × ℝ)
    (z_j z_i C_i R_i h_i sigma : Quantity ℝ)
    (hu : z_j.units = z_i.units ∧ z_i.units = R_i.units ∧ R_i.units = h_i.units)
    (hval : (quad (fun z => 1 / (2 * sigma.mag) *
        (Real.sqrt ((z - z_j.mag) ^ 2 + R_i.mag ^ 2) - |z - z_j.mag|))
        (z_i.mag - h_i.mag / 2) (z_i.mag + h_i.mag / 2)).1 =
      (quad2 (fun z => 1 / (2 * sigma.mag) *
        (Real.sqrt ((z - z_j.mag) ^ 2 + R_i.mag ^ 2) - |z - z_j.mag|))
        (z_i.mag - h_i.mag / 2) (z_i.mag + h_i.mag / 2)).1) :
    potential_of_cylinder_quad quad z_j z_i C_i R_i h_i sigma =
      Except.ok (qmul ⟨C_i.mag * (quad (fun z => 1 / (2 * sigma.mag) *
          (Real.sqrt ((z - z_j.mag) ^ 2 + R_i.mag ^ 2) - |z - z_j.mag|))
          (z_i.mag - h_i.mag / 2) (z_i.mag + h_i.mag / 2)).1, C_i.units⟩
        ⟨1, z_i.units ^ 2 / sigma.units⟩) ∧
    potential_of_cylinder_quad quad z_j z_i C_i R_i h_i sigma =
      potential_of_cylinder_quad quad2 z_j z_i C_i R_i h_i sigma ∧
    potential_of_cylinder_quad exactQuad z_j z_i C_i R_i h_i sigma =
      potential_of_cylinder z_j z_i C_i R_i h_i sigma := by
  refine ⟨?_, ?_, ?_⟩
  · rw [potential_of_cylinder_quad, if_pos hu]
  · rw [potential_of_cylinder_quad, if_pos hu, potential_of_cylinder_quad, if_pos hu]
    show Except.ok (qmul ⟨C_i.mag * (quad _ _ _).1, C_i.units⟩
        (⟨1, z_i.units ^ 2 / sigma.units⟩ : Quantity ℝ)) =
      Except.ok (qmul ⟨C_i.mag * (quad2 _ _ _).1, C_i.units⟩
        ⟨1, z_i.units ^ 2 / sigma.units⟩)
    rw [hval]
  · rw [potential_of_cylinder_quad, if_pos hu, potential_of_cylinder, if_pos hu]
    show Except.ok (⟨C_i.mag * (∫ z in (z_i.mag - h_i.mag / 2)..(z_i.mag + h_i.mag / 2),
        1 / (2 * sigma.mag) * (Real.sqrt ((z - z_j.mag) ^ 2 + R_i.mag ^ 2) -
          |z - z_j.mag|)) * 1,
        C_i.units * (z_i.units ^ 2 / sigma.units)⟩ : Quantity ℝ) = Except.ok
      ⟨C_i.mag * ∫ z in (z_i.mag - h_i.mag / 2)..(z_i.mag + h_i.mag / 2),
        1 / (2 * sigma.mag) * (Real.sqrt ((z - z_j.mag) ^ 2 + R_i.mag ^ 2) -
          |z - z_j.mag|),
        C_i.units * (z_i.units ^ 2 / sigma.units)⟩
    rw [mul_one]

/-- Witness for the amended C9: exact integration against the rough
routine on metre-unit inputs. -/
theorem cylinder_quad_returns_value_only_witness :
    (((⟨1, metre⟩ : Quantity ℝ).units = (⟨0, metre⟩ : Quantity ℝ).units ∧
        (⟨0, metre⟩ : Quantity ℝ).units = (⟨1, metre⟩ : Quantity ℝ).units ∧
        (⟨1, metre⟩ : Quantity ℝ).units = (⟨1, metre⟩ : Quantity ℝ).units) ∧
      (exactQuad (fun z => 1 / (2 * (⟨3 / 10, siemensPerMetre⟩ : Quantity ℝ).mag) *
          (Real.sqrt ((z - (⟨1, metre⟩ : Quantity ℝ).mag) ^ 2 +
            (⟨1, metre⟩ : Quantity ℝ).mag ^ 2) - |z - (⟨1, metre⟩ : Quantity ℝ).mag|))
          ((⟨0, metre⟩ : Quantity ℝ).mag - (⟨1, metre⟩ : Quantity ℝ).mag / 2)
          ((⟨0, metre⟩ : Quantity ℝ).mag + (⟨1, metre⟩ : Quantity ℝ).mag / 2)).1 =
        (roughQuad (fun z => 1 / (2 * (⟨3 / 10, siemensPerMetre⟩ : Quantity ℝ).mag) *
          (Real.sqrt ((z - (⟨1, metre⟩ : Quantity ℝ).mag) ^ 2 +
            (⟨1, metre⟩ : Quantity ℝ).mag ^ 2) - |z - (⟨1, metre⟩ : Quantity ℝ).mag|))
          ((⟨0, metre⟩ : Quantity ℝ).mag - (⟨1, metre⟩ : Quantity ℝ).mag / 2)
          ((⟨0, metre⟩ : Quantity ℝ).mag + (⟨1, metre⟩ : Quantity ℝ).mag / 2)).1) ∧
    (potential_of_cylinder_quad exactQuad (⟨1, metre⟩ : Quantity ℝ) ⟨0, metre⟩
        ⟨2, ampPerM3⟩ ⟨1, metre⟩ ⟨1, metre⟩ ⟨3 / 10, siemensPerMetre⟩ =
      Except.ok (qmul ⟨(⟨2, ampPerM3⟩ : Quantity ℝ).mag *
          (exactQuad (fun z => 1 / (2 * (⟨3 / 10, siemensPerMetre⟩ : Quantity ℝ).mag) *
            (Real.sqrt ((z - (⟨1, metre⟩ : Quantity ℝ).mag) ^ 2 +
              (⟨1, metre⟩ : Quantity ℝ).mag ^ 2) - |z - (⟨1, metre⟩ : Quantity ℝ).mag|))
            ((⟨0, metre⟩ : Quantity ℝ).mag - (⟨1, metre⟩ : Quantity ℝ).mag / 2)
            ((⟨0, metre⟩ : Quantity ℝ).mag + (⟨1, metre⟩ : Quantity ℝ).mag / 2)).1,
          (⟨2, ampPerM3⟩ : Quantity ℝ).units⟩
        ⟨1, (⟨0, metre⟩ : Quantity ℝ).units ^ 2 /
          (⟨3 / 10, siemensPerMetre⟩ : Quantity ℝ).units⟩) ∧
      potential_of_cylinder_quad exactQuad (⟨1, metre⟩ : Quantity ℝ) ⟨0, metre⟩
          ⟨2, ampPerM3⟩ ⟨1, metre⟩ ⟨1, metre⟩ ⟨3 / 10, siemensPerMetre⟩ =
        potential_of_cylinder_quad roughQuad (⟨1, metre⟩ : Quantity ℝ) ⟨0, metre⟩
          ⟨2, ampPerM3⟩ ⟨1, metre⟩ ⟨1, metre⟩ ⟨3 / 10, siemensPerMetre⟩ ∧
      potential_of_cylinder_quad exactQuad (⟨1, metre⟩ : Quantity ℝ) ⟨0, metre⟩
          ⟨2, ampPerM3⟩ ⟨1, metre⟩ ⟨1, metre⟩ ⟨3 / 10, siemensPerMetre⟩ =
        potential_of_cylinder (⟨1, metre⟩ : Quantity ℝ) ⟨0, metre⟩
          ⟨2, ampPerM3⟩ ⟨1, metre⟩ ⟨1, metre⟩ ⟨3 / 10, siemensPerMetre⟩) :=
  ⟨⟨⟨rfl, rfl, rfl⟩, rfl⟩,
    cylinder_quad_returns_value_only exactQuad roughQuad _ _ _ _ _ _
      ⟨rfl, rfl, rfl⟩ rfl⟩

end QuadDiscard

section CylinderSuperposition

/-- The cylinder half of C8: with positions, radii and thicknesses
sharing one unit and densities one dimension, the cylinder synthesizer
succeeds, each trace entry's SI base value is the sum of the cylinder
kernel's contributions, and the trace of a concatenation of two source
lists is the elementwise sum of the separate traces. -/
theorem lfp_superposition_cylinders
    (z_j z_i1 C1 R1 h1 z_i2 C2 R2 h2 : List (Quantity ℝ)) (sigma : Quantity ℝ)
    (u : PhysUnit) (cd : SIDims)
    (hzj : ∀ q ∈ z_j, q.units = u)
    (hzi1 : ∀ q ∈ z_i1, q.units = u) (hzi2 : ∀ q ∈ z_i2, q.units = u)
    (hR1 : ∀ q ∈ R1, q.units = u) (hR2 : ∀ q ∈ R2, q.units = u)
    (hh1 : ∀ q ∈ h1, q.units = u) (hh2 : ∀ q ∈ h2, q.units = u)
    (hC1 : ∀ q ∈ C1, q.units.dims = cd) (hC2 : ∀ q ∈ C2, q.units.dims = cd)
    (hl1 : z_i1.length = C1.length) (hlR : z_i1.length = R1.length)
    (hlh : z_i1.length = h1.length)
    (hv : (cd - sigma.units.dims) + (u.dims + u.dims) = volt.dims) :
    ∃ t t1 t2 : List (Quantity ℝ),
      get_lfp_of_cylinders z_j (z_i1 ++ z_i2) (C1 ++ C2) (R1 ++ R2) (h1 ++ h2)
        sigma false = Except.ok (t, C1 ++ C2) ∧
      get_lfp_of_cylinders z_j z_i1 C1 R1 h1 sigma false = Except.ok (t1, C1) ∧
      get_lfp_of_cylinders z_j z_i2 C2 R2 h2 sigma false = Except.ok (t2, C2) ∧
      t.length = z_j.length ∧
      ∀ j, j < z_j.length → ∀ d : Quantity ℝ,
        physVal (t.getD j d) =
          ((((z_i1 ++ z_i2).zip (C1 ++ C2)).zip ((R1 ++ R2).zip (h1 ++ h2))).map
            (fun p => physVal
              (cylinderCore (z_j.getD j d) p.1.1 p.1.2 p.2.1 p.2.2 sigma))).sum ∧
        physVal (t.getD j d) = physVal (t1.getD j d) + physVal (t2.getD j d) := by
  have hzi12 : ∀ q ∈ z_i1 ++ z_i2, q.units = u := fun q hq =>
    (List.mem_append.mp hq).elim (hzi1 q) (hzi2 q)
  have hR12 : ∀ q ∈ R1 ++ R2, q.units = u := fun q hq =>
    (List.mem_append.mp hq).elim (hR1 q) (hR2 q)
  have hh12 : ∀ q ∈ h1 ++ h2, q.units = u := fun q hq =>
    (List.mem_append.mp hq).elim (hh1 q) (hh2 q)
  have hinit_len : (z_j.map fun _ => (⟨0, volt⟩ : Quantity ℝ)).length = z_j.length :=
    List.length_map _ _
  refine ⟨_, _, _,
    get_lfp_of_cylinders_ok z_j sigma hzj _ _ _ _ hzi12 hR12 hh12,
    get_lfp_of_cylinders_ok z_j sigma hzj _ _ _ _ hzi1 hR1 hh1,
    get_lfp_of_cylinders_ok z_j sigma hzj _ _ _ _ hzi2 hR2 hh2,
    foldl_zipWithG_length (fun zj (p : (Quantity ℝ × Quantity ℝ) ×
      (Quantity ℝ × Quantity ℝ)) => cylinderCore zj p.1.1 p.1.2 p.2.1 p.2.2 sigma)
      z_j _ _ hinit_len, ?_⟩
  intro j hj d
  have hcoredims : ∀ zl Cl Rl hl : List (Quantity ℝ),
      (∀ q ∈ zl, q.units = u) → (∀ q ∈ Cl, q.units.dims = cd) →
      ∀ p ∈ (zl.zip Cl).zip (Rl.zip hl),
      (cylinderCore (z_j.getD j d) p.1.1 p.1.2 p.2.1 p.2.2 sigma).units.dims =
        volt.dims := by
    intro zl Cl Rl hl hz hC p hp
    obtain ⟨⟨x, y⟩, r, s⟩ := p
    obtain ⟨hxy, _⟩ := List.of_mem_zip hp
    rw [cylinderCore_units_dims, hC y (List.of_mem_zip hxy).2,
      hz x (List.of_mem_zip hxy).1]
    exact hv
  have hinit_val : (z_j.map fun _ => (⟨0, volt⟩ : Quantity ℝ)).getD j d = ⟨0, volt⟩ :=
    getD_map_const _ _ j hj d
  have hphys0 : physVal (⟨0, volt⟩ : Quantity ℝ) = 0 := by
    simp [physVal]
  have e1 : (z_i1 ++ z_i2).zip (C1 ++ C2) = z_i1.zip C1 ++ z_i2.zip C2 :=
    List.zip_append hl1
  have e2 : (R1 ++ R2).zip (h1 ++ h2) = R1.zip h1 ++ R2.zip h2 :=
    List.zip_append (hlR.symm.trans hlh)
  have e3 : ((z_i1 ++ z_i2).zip (C1 ++ C2)).zip ((R1 ++ R2).zip (h1 ++ h2)) =
      (z_i1.zip C1).zip (R1.zip h1) ++ (z_i2.zip C2).zip (R2.zip h2) := by
    rw [e1, e2]
    exact List.zip_append (by
      rw [List.length_zip, List.length_zip, ← hl1, ← hlR, ← hlh, Nat.min_self])
  have hg12 := foldl_stepG_getD (fun zj (p : (Quantity ℝ × Quantity ℝ) ×
      (Quantity ℝ × Quantity ℝ)) => cylinderCore zj p.1.1 p.1.2 p.2.1 p.2.2 sigma)
    z_j j hj d (((z_i1 ++ z_i2).zip (C1 ++ C2)).zip ((R1 ++ R2).zip (h1 ++ h2)))
    _ hinit_len
  have hg1 := foldl_stepG_getD (fun zj (p : (Quantity ℝ × Quantity ℝ) ×
      (Quantity ℝ × Quantity ℝ)) => cylinderCore zj p.1.1 p.1.2 p.2.1 p.2.2 sigma)
    z_j j hj d ((z_i1.zip C1).zip (R1.zip h1)) _ hinit_len
  have hg2 := foldl_stepG_getD (fun zj (p : (Quantity ℝ × Quantity ℝ) ×
      (Quantity ℝ × Quantity ℝ)) => cylinderCore zj p.1.1 p.1.2 p.2.1 p.2.2 sigma)
    z_j j hj d ((z_i2.zip C2).zip (R2.zip h2)) _ hinit_len
  obtain ⟨hsum1, hu1⟩ := physVal_foldl_qaddG
    (fun p : (Quantity ℝ × Quantity ℝ) × (Quantity ℝ × Quantity ℝ) =>
      cylinderCore (z_j.getD j d) p.1.1 p.1.2 p.2.1 p.2.2 sigma)
    ((z_i1.zip C1).zip (R1.zip h1)) (hcoredims _ _ _ _ hzi1 hC1) ⟨0, volt⟩ rfl
  obtain ⟨hsum2, _⟩ := physVal_foldl_qaddG
    (fun p : (Quantity ℝ × Quantity ℝ) × (Quantity ℝ × Quantity ℝ) =>
      cylinderCore (z_j.getD j d) p.1.1 p.1.2 p.2.1 p.2.2 sigma)
    ((z_i2.zip C2).zip (R2.zip h2)) (hcoredims _ _ _ _ hzi2 hC2) _ hu1
  obtain ⟨hsum2', _⟩ := physVal_foldl_qaddG
    (fun p : (Quantity ℝ × Quantity ℝ) × (Quantity ℝ × Quantity ℝ) =>
      cylinderCore (z_j.getD j d) p.1.1 p.1.2 p.2.1 p.2.2 sigma)
    ((z_i2.zip C2).zip (R2.zip h2)) (hcoredims _ _ _ _ hzi2 hC2) ⟨0, volt⟩ rfl
  constructor
  · obtain ⟨hsum12, _⟩ := physVal_foldl_qaddG
      (fun p : (Quantity ℝ × Quantity ℝ) × (Quantity ℝ × Quantity ℝ) =>
        cylinderCore (z_j.getD j d) p.1.1 p.1.2 p.2.1 p.2.2 sigma)
      (((z_i1 ++ z_i2).zip (C1 ++ C2)).zip ((R1 ++ R2).zip (h1 ++ h2)))
      (fun p hp => by
        rw [e3] at hp
        exact (List.mem_append.mp hp).elim
          (hcoredims _ _ _ _ hzi1 hC1 p) (hcoredims _ _ _ _ hzi2 hC2 p)) ⟨0, volt⟩ rfl
    rw [hg12, hinit_val, hsum12, hphys0, zero_add]
  · rw [hg12, hg1, hg2, hinit_val, e3, List.foldl_append, hsum2, hsum1, hphys0,
      hsum2', hphys0]
    ring

end CylinderSuperposition

/-- C8: for the plane and cylinder synthesizers alike, under the unit
hypotheses that make the synthesis well-typed, each trace entry's SI
base value equals the sum over the sources of the kernel contribution
at that electrode, and the trace synthesized from the concatenation of
two source lists equals the elementwise sum of the traces synthesized
from each list separately (exactly, in the exact-field model). -/
theorem lfp_superposition {α : Type} [LinearOrderedField α]
    (z_j z_i1 C1 z_i2 C2 : List (Quantity α)) (sigma : Quantity α)
    (u : PhysUnit) (cd : SIDims)
    (hzj : ∀ q ∈ z_j, q.units = u)
    (hzi1 : ∀ q ∈ z_i1, q.units = u) (hzi2 : ∀ q ∈ z_i2, q.units = u)
    (hC1 : ∀ q ∈ C1, q.units.dims = cd) (hC2 : ∀ q ∈ C2, q.units.dims = cd)
    (hl1 : z_i1.length = C1.length)
    (hv : (cd - sigma.units.dims) + u.dims = volt.dims)
    (zc_j zc_i1 Cc1 Rc1 hc1 zc_i2 Cc2 Rc2 hc2 : List (Quantity ℝ))
    (sigmac : Quantity ℝ) (uc : PhysUnit) (cdc : SIDims)
    (hczj : ∀ q ∈ zc_j, q.units = uc)
    (hczi1 : ∀ q ∈ zc_i1, q.units = uc) (hczi2 : ∀ q ∈ zc_i2, q.units = uc)
    (hcR1 : ∀ q ∈ Rc1, q.units = uc) (hcR2 : ∀ q ∈ Rc2, q.units = uc)
    (hch1 : ∀ q ∈ hc1, q.units = uc) (hch2 : ∀ q ∈ hc2, q.units = uc)
    (hcC1 : ∀ q ∈ Cc1, q.units.dims = cdc) (hcC2 : ∀ q ∈ Cc2, q.units.dims = cdc)
    (hcl1 : zc_i1.length = Cc1.length) (hclR : zc_i1.length = Rc1.length)
    (hclh : zc_i1.length = hc1.length)
    (hvc : (cdc - sigmac.units.dims) + (uc.dims + uc.dims) = volt.dims) :
    (∃ t t1 t2 : List (Quantity α),
      get_lfp_of_planes z_j (z_i1 ++ z_i2) (C1 ++ C2) sigma false =
        Except.ok (t, C1 ++ C2) ∧
      get_lfp_of_planes z_j z_i1 C1 sigma false = Except.ok (t1, C1) ∧
      get_lfp_of_planes z_j z_i2 C2 sigma false = Except.ok (t2, C2) ∧
      t.length = z_j.length ∧
      ∀ j, j < z_j.length → ∀ d : Quantity α,
        physVal (t.getD j d) =
          (((z_i1 ++ z_i2).zip (C1 ++ C2)).map
            (fun p => physVal (planeCore (z_j.getD j d) p.1 p.2 sigma))).sum ∧
        physVal (t.getD j d) = physVal (t1.getD j d) + physVal (t2.getD j d)) ∧
    ∃ t t1 t2 : List (Quantity ℝ),
      get_lfp_of_cylinders zc_j (zc_i1 ++ zc_i2) (Cc1 ++ Cc2) (Rc1 ++ Rc2)
        (hc1 ++ hc2) sigmac false = Except.ok (t, Cc1 ++ Cc2) ∧
      get_lfp_of_cylinders zc_j zc_i1 Cc1 Rc1 hc1 sigmac false =
        Except.ok (t1, Cc1) ∧
      get_lfp_of_cylinders zc_j zc_i2 Cc2 Rc2 hc2 sigmac false =
        Except.ok (t2, Cc2) ∧
      t.length = zc_j.length ∧
      ∀ j, j < zc_j.length → ∀ d : Quantity ℝ,
        physVal (t.getD j d) =
          ((((zc_i1 ++ zc_i2).zip (Cc1 ++ Cc2)).zip
              ((Rc1 ++ Rc2).zip (hc1 ++ hc2))).map
            (fun p => physVal
              (cylinderCore (zc_j.getD j d) p.1.1 p.1.2 p.2.1 p.2.2 sigmac))).sum ∧
        physVal (t.getD j d) = physVal (t1.getD j d) + physVal (t2.getD j d) :=
  ⟨lfp_superposition_planes z_j z_i1 C1 z_i2 C2 sigma u cd hzj hzi1 hzi2 hC1 hC2
      hl1 hv,
    lfp_superposition_cylinders zc_j zc_i1 Cc1 Rc1 hc1 zc_i2 Cc2 Rc2 hc2 sigmac
      uc cdc hczj hczi1 hczi2 hcR1 hcR2 hch1 hch2 hcC1 hcC2 hcl1 hclR hclh hvc⟩

/-- Concrete cylinder-side inputs for the C8 witness. -/
noncomputable def w8cz : List (Quantity ℝ) := [⟨1, metre⟩]

noncomputable def w8czi1 : List (Quantity ℝ) := [⟨0, metre⟩]

noncomputable def w8cD1 : List (Quantity ℝ) := [⟨1, ampPerM3⟩]

noncomputable def w8cR1 : List (Quantity ℝ) := [⟨1, metre⟩]

noncomputable def w8ch1 : List (Quantity ℝ) := [⟨1, metre⟩]

noncomputable def w8czi2 : List (Quantity ℝ) := [⟨2, metre⟩]

noncomputable def w8cD2 : List (Quantity ℝ) := [⟨2, ampPerM3⟩]

noncomputable def w8cR2 : List (Quantity ℝ) := [⟨1, metre⟩]

noncomputable def w8ch2 : List (Quantity ℝ) := [⟨1, metre⟩]

noncomputable def w8csigma : Quantity ℝ := ⟨3 / 10, siemensPerMetre⟩

/-- Witness for C8: the plane instance with one electrode at `1 m` and
two plane sources, and the cylinder instance with one electrode and two
unit cylinders. -/
theorem lfp_superposition_witness :
    ((∀ q ∈ w8z, q.units = metre) ∧ (∀ q ∈ w8zi1, q.units = metre) ∧
        (∀ q ∈ w8zi2, q.units = metre) ∧
        (∀ q ∈ w8C1, q.units.dims = ampPerM2.dims) ∧
        (∀ q ∈ w8C2, q.units.dims = ampPerM2.dims) ∧
        w8zi1.length = w8C1.length ∧
        (ampPerM2.dims - w8sigma.units.dims) + metre.dims = volt.dims ∧
        (∀ q ∈ w8cz, q.units = metre) ∧ (∀ q ∈ w8czi1, q.units = metre) ∧
        (∀ q ∈ w8czi2, q.units = metre) ∧
        (∀ q ∈ w8cR1, q.units = metre) ∧ (∀ q ∈ w8cR2, q.units = metre) ∧
        (∀ q ∈ w8ch1, q.units = metre) ∧ (∀ q ∈ w8ch2, q.units = metre) ∧
        (∀ q ∈ w8cD1, q.units.dims = ampPerM3.dims) ∧
        (∀ q ∈ w8cD2, q.units.dims = ampPerM3.dims) ∧
        w8czi1.length = w8cD1.length ∧ w8czi1.length = w8cR1.length ∧
        w8czi1.length = w8ch1.length ∧
        (ampPerM3.dims - w8csigma.units.dims) + (metre.dims + metre.dims) =
          volt.dims) ∧
      ((∃ t t1 t2 : List (Quantity ℚ),
        get_lfp_of_planes w8z (w8zi1 ++ w8zi2) (w8C1 ++ w8C2) w8sigma false =
          Except.ok (t, w8C1 ++ w8C2) ∧
        get_lfp_of_planes w8z w8zi1 w8C1 w8sigma false = Except.ok (t1, w8C1) ∧
        get_lfp_of_planes w8z w8zi2 w8C2 w8sigma false = Except.ok (t2, w8C2) ∧
        t.length = w8z.length ∧
        ∀ j, j < w8z.length → ∀ d : Quantity ℚ,
          physVal (t.getD j d) =
            (((w8zi1 ++ w8zi2).zip (w8C1 ++ w8C2)).map
              (fun p => physVal (planeCore (w8z.getD j d) p.1 p.2 w8sigma))).sum ∧
          physVal (t.getD j d) = physVal (t1.getD j d) + physVal (t2.getD j d)) ∧
      ∃ t t1 t2 : List (Quantity ℝ),
        get_lfp_of_cylinders w8cz (w8czi1 ++ w8czi2) (w8cD1 ++ w8cD2)
          (w8cR1 ++ w8cR2) (w8ch1 ++ w8ch2) w8csigma false =
          Except.ok (t, w8cD1 ++ w8cD2) ∧
        get_lfp_of_cylinders w8cz w8czi1 w8cD1 w8cR1 w8ch1 w8csigma false =
          Except.ok (t1, w8cD1) ∧
        get_lfp_of_cylinders w8cz w8czi2 w8cD2 w8cR2 w8ch2 w8csigma false =
          Except.ok (t2, w8cD2) ∧
        t.length = w8cz.length ∧
        ∀ j, j < w8cz.length → ∀ d : Quantity ℝ,
          physVal (t.getD j d) =
            ((((w8czi1 ++ w8czi2).zip (w8cD1 ++ w8cD2)).zip
                ((w8cR1 ++ w8cR2).zip (w8ch1 ++ w8ch2))).map
              (fun p => physVal
                (cylinderCore (w8cz.getD j d) p.1.1 p.1.2 p.2.1 p.2.2
                  w8csigma))).sum ∧
          physVal (t.getD j d) = physVal (t1.getD j d) + physVal (t2.getD j d)) :=
  ⟨⟨by decide, by decide, by decide, by decide, by decide, rfl, by decide,
      by decide, by decide, by decide, by decide, by decide, by decide, by decide,
      by decide, by decide, rfl, rfl, rfl, by decide⟩,
    lfp_superposition w8z w8zi1 w8C1 w8zi2 w8C2 w8sigma metre ampPerM2.dims
      (by decide) (by decide) (by decide) (by decide) (by decide) rfl (by decide)
      w8cz w8czi1 w8cD1 w8cR1 w8ch1 w8czi2 w8cD2 w8cR2 w8ch2 w8csigma metre
      ampPerM3.dims
      (by decide) (by decide) (by decide) (by decide) (by decide) (by decide)
      (by decide) (by decide) (by decide) rfl rfl rfl (by decide)⟩

section RescaleInvariance

theorem physVal_rescaleR (k : ℚ) (hk : k ≠ 0) (q : Quantity ℝ) :
    physVal (rescaleR k q) = physVal q := by
  simp only [physVal, rescaleR, Rat.cast_div]
  have hk' : ((k : ℚ) : ℝ) ≠ 0 := by exact_mod_cast hk
  field_simp
  ring

theorem rescaleR_dims (k : ℚ) (q : Quantity ℝ) :
    (rescaleR k q).units.dims = q.units.dims := rfl

theorem map_physVal_rescaleR (l : List (Quantity ℝ)) (k : ℚ) (hk : k ≠ 0) :
    (l.map (rescaleR k)).map physVal = l.map physVal := by
  rw [List.map_map]
  have hfun : physVal ∘ rescaleR k = (physVal : Quantity ℝ → ℝ) :=
    funext fun q => physVal_rescaleR k hk q
  rw [hfun]

theorem headD_dims_rescaleR (l : List (Quantity ℝ)) (k : ℚ) (dflt : Quantity ℝ) :
    ((l.map (rescaleR k)).headD dflt).units.dims = (l.headD dflt).units.dims := by
  cases l
  · rfl
  · rfl

/-- The modelled delta estimator is literally unchanged by positive
dimensionally consistent rescalings of its inputs (`sigma_top` only
gates the asymmetric variant, so its factor is unconstrained). -/
theorem DeltaiCSD_rescale (lfp coord : List (Quantity ℝ))
    (diam sigma sigma_top : Quantity ℝ) (f g h k m : ℚ)
    (hf : f ≠ 0) (hg : g ≠ 0) (hh : h ≠ 0) (hk : k ≠ 0) :
    DeltaiCSD (lfp.map (rescaleR f)) (coord.map (rescaleR g)) (rescaleR h diam)
        (rescaleR k sigma) (rescaleR m sigma_top) =
      DeltaiCSD lfp coord diam sigma sigma_top := by
  unfold DeltaiCSD
  rw [map_physVal_rescaleR lfp f hf, map_physVal_rescaleR coord g hg,
    physVal_rescaleR h hh diam, physVal_rescaleR k hk sigma,
    headD_dims_rescaleR lfp f, headD_dims_rescaleR coord g, rescaleR_dims k sigma]

/-- The modelled step estimator is literally unchanged by positive
dimensionally consistent rescalings of its inputs, including the
per-source thickness list, and by any change of the pass-through
quadrature tolerance. -/
theorem StepiCSD_rescale (lfp coord : List (Quantity ℝ))
    (diam sigma sigma_top : Quantity ℝ) (hl : List (Quantity ℝ)) (tol tol2 : ℝ)
    (f g h k m r : ℚ)
    (hf : f ≠ 0) (hg : g ≠ 0) (hh : h ≠ 0) (hk : k ≠ 0) (hr : r ≠ 0) :
    StepiCSD (lfp.map (rescaleR f)) (coord.map (rescaleR g)) (rescaleR h diam)
        (rescaleR k sigma) (rescaleR m sigma_top) (hl.map (rescaleR r)) tol2 =
      StepiCSD lfp coord diam sigma sigma_top hl tol := by
  unfold StepiCSD
  rw [map_physVal_rescaleR lfp f hf, map_physVal_rescaleR coord g hg,
    map_physVal_rescaleR hl r hr, physVal_rescaleR h hh diam,
    physVal_rescaleR k hk sigma, headD_dims_rescaleR lfp f,
    headD_dims_rescaleR coord g, rescaleR_dims k sigma]

/-- C2: all three modelled estimators are invariant under rescaling of
their inputs by positive dimensionally consistent factors: the standard
estimator under rescaled lfp/coordinates/conductivity (with the primary
plane scenario still returning the ground truth), the delta estimator
under rescaled lfp/coordinates/diam/sigma/sigma_top (with the disk
scenario still returning the ground truth), and the step estimator
under rescaled lfp/coordinates/diam/sigma/sigma_top/h and any quadrature
tolerance; in every case the returned density list, unit included, is
literally unchanged. -/
theorem csd_unit_invariance (lfp coord : List (Quantity ℚ)) (sigma : Quantity ℚ)
    (lfpR coordR : List (Quantity ℝ)) (diamR sigmaR sigmaTopR : Quantity ℝ)
    (hR : List (Quantity ℝ)) (tol tol2 : ℝ)
    (f g h : ℚ) (hf : 0 < f) (hg : 0 < g) (hh : 0 < h)
    (fr gr hr kr mr rr : ℚ) (hfr : 0 < fr) (hgr : 0 < gr) (hhr : 0 < hr)
    (hkr : 0 < kr) (hmr : 0 < mr) (hrr : 0 < rr) :
    (StandardCSD (lfp.map (rescaleQ f)) (coord.map (rescaleQ g)) (rescaleQ h sigma) =
      StandardCSD lfp coord sigma) ∧
    (∀ phi : List (Quantity ℚ),
      (get_lfp_of_planes z_j21 z_j21 C_true sigma0 false).map Prod.fst =
        Except.ok phi →
      StandardCSD (phi.map (rescaleQ f)) (z_j21.map (rescaleQ g)) (rescaleQ h sigma0) =
        C_true) ∧
    (DeltaiCSD (lfpR.map (rescaleR fr)) (coordR.map (rescaleR gr))
        (rescaleR hr diamR) (rescaleR kr sigmaR) (rescaleR mr sigmaTopR) =
      DeltaiCSD lfpR coordR diamR sigmaR sigmaTopR) ∧
    (∀ t : List (Quantity ℝ),
      get_lfp_of_disks z21R z21R C_trueR R21R sigma0R false =
        Except.ok (t, C_trueR) →
      DeltaiCSD (t.map (rescaleR fr)) (z21R.map (rescaleR gr))
        (rescaleR hr diam0R) (rescaleR kr sigma0R) (rescaleR mr sigma0R) =
          C_trueR) ∧
    StepiCSD (lfpR.map (rescaleR fr)) (coordR.map (rescaleR gr))
        (rescaleR hr diamR) (rescaleR kr sigmaR) (rescaleR mr sigmaTopR)
        (hR.map (rescaleR rr)) tol2 =
      StepiCSD lfpR coordR diamR sigmaR sigmaTopR hR tol := by
  refine ⟨StandardCSD_rescale lfp coord sigma f g h hf.ne' hg.ne' hh.ne', ?_,
    DeltaiCSD_rescale lfpR coordR diamR sigmaR sigmaTopR fr gr hr kr mr
      hfr.ne' hgr.ne' hhr.ne' hkr.ne', ?_,
    StepiCSD_rescale lfpR coordR diamR sigmaR sigmaTopR hR tol tol2 fr gr hr kr mr rr
      hfr.ne' hgr.ne' hhr.ne' hkr.ne' hrr.ne'⟩
  · intro phi hphi
    rw [StandardCSD_rescale phi z_j21 sigma0 f g h hf.ne' hg.ne' hh.ne']
    cases hglfp : get_lfp_of_planes z_j21 z_j21 C_true sigma0 false with
    | error e =>
      rw [hglfp] at hphi
      exact absurd hphi (by simp [Except.map])
    | ok pr =>
      have hrt := scenario_roundtrip
      rw [hglfp] at hrt hphi
      simp only [Except.map] at hrt hphi
      rw [← Except.ok.inj hphi]
      exact Except.ok.inj hrt
  · intro t ht
    rw [DeltaiCSD_rescale t z21R diam0R sigma0R sigma0R fr gr hr kr mr
      hfr.ne' hgr.ne' hhr.ne' hkr.ne']
    obtain ⟨t0, h1, h2, h3, h4⟩ := scenario_disk_trace
    rw [h1] at ht
    have htt : t0 = t := congrArg Prod.fst (Except.ok.inj ht)
    rw [← htt]
    exact deltaiCSD_scenario t0 h2 h3 h4

/-- Witness for C2 at the volt-to-millivolt, metre-to-millimetre,
siemens-to-millisiemens factors `1000`, on one-electrode inputs. -/
theorem csd_unit_invariance_witness :
    (((0 : ℚ) < 1000 ∧ (0 : ℚ) < 1000 ∧ (0 : ℚ) < 1000) ∧
        ((0 : ℚ) < 1000 ∧ (0 : ℚ) < 1000 ∧ (0 : ℚ) < 1000 ∧ (0 : ℚ) < 1000 ∧
          (0 : ℚ) < 1000 ∧ (0 : ℚ) < 1000)) ∧
      ((StandardCSD ([(⟨1, volt⟩ : Quantity ℚ)].map (rescaleQ 1000))
          ([(⟨1, metre⟩ : Quantity ℚ)].map (rescaleQ 1000))
          (rescaleQ 1000 ⟨3 / 10, siemensPerMetre⟩) =
        StandardCSD [(⟨1, volt⟩ : Quantity ℚ)] [(⟨1, metre⟩ : Quantity ℚ)]
          ⟨3 / 10, siemensPerMetre⟩) ∧
      (∀ phi : List (Quantity ℚ),
        (get_lfp_of_planes z_j21 z_j21 C_true sigma0 false).map Prod.fst =
          Except.ok phi →
        StandardCSD (phi.map (rescaleQ 1000)) (z_j21.map (rescaleQ 1000))
          (rescaleQ 1000 sigma0) = C_true) ∧
      (DeltaiCSD ([(⟨1, volt⟩ : Quantity ℝ)].map (rescaleR 1000))
          ([(⟨1, metre⟩ : Quantity ℝ)].map (rescaleR 1000))
          (rescaleR 1000 ⟨1 / 500, metre⟩) (rescaleR 1000 ⟨3 / 10, siemensPerMetre⟩)
          (rescaleR 1000 ⟨3 / 10, siemensPerMetre⟩) =
        DeltaiCSD [(⟨1, volt⟩ : Quantity ℝ)] [(⟨1, metre⟩ : Quantity ℝ)]
          ⟨1 / 500, metre⟩ ⟨3 / 10, siemensPerMetre⟩ ⟨3 / 10, siemensPerMetre⟩) ∧
      (∀ t : List (Quantity ℝ),
        get_lfp_of_disks z21R z21R C_trueR R21R sigma0R false =
          Except.ok (t, C_trueR) →
        DeltaiCSD (t.map (rescaleR 1000)) (z21R.map (rescaleR 1000))
          (rescaleR 1000 diam0R) (rescaleR 1000 sigma0R) (rescaleR 1000 sigma0R) =
            C_trueR) ∧
      StepiCSD ([(⟨1, volt⟩ : Quantity ℝ)].map (rescaleR 1000))
          ([(⟨1, metre⟩ : Quantity ℝ)].map (rescaleR 1000))
          (rescaleR 1000 ⟨1 / 500, metre⟩) (rescaleR 1000 ⟨3 / 10, siemensPerMetre⟩)
          (rescaleR 1000 ⟨3 / 10, siemensPerMetre⟩)
          ([(⟨1, metre⟩ : Quantity ℝ)].map (rescaleR 1000)) 1 =
        StepiCSD [(⟨1, volt⟩ : Quantity ℝ)] [(⟨1, metre⟩ : Quantity ℝ)]
          ⟨1 / 500, metre⟩ ⟨3 / 10, siemensPerMetre⟩ ⟨3 / 10, siemensPerMetre⟩
          [(⟨1, metre⟩ : Quantity ℝ)] 0) :=
  ⟨⟨⟨by norm_num, by norm_num, by norm_num⟩,
      ⟨by norm_num, by norm_num, by norm_num, by norm_num, by norm_num, by norm_num⟩⟩,
    csd_unit_invariance [⟨1, volt⟩] [⟨1, metre⟩] ⟨3 / 10, siemensPerMetre⟩
      [⟨1, volt⟩] [⟨1, metre⟩] ⟨1 / 500, metre⟩ ⟨3 / 10, siemensPerMetre⟩
      ⟨3 / 10, siemensPerMetre⟩ [⟨1, metre⟩] 0 1
      1000 1000 1000 (by norm_num) (by norm_num) (by norm_num)
      1000 1000 1000 1000 1000 1000 (by norm_num) (by norm_num) (by norm_num)
      (by norm_num) (by norm_num) (by norm_num)⟩

end RescaleInvariance
